import Mathlib

/-!
Verification development for the TR-31:2018 key block engine of the paysec
repository (src/keyblock/tr31_2018).  Rust byte strings are modelled as
lists of natural numbers (one entry per byte); machine integers are
modelled as Nat with explicit reduction modulo 2^16 where the Rust code
performs a truncating cast.  The external AES primitives (CBC encryption,
CBC decryption and CMAC), which the repository consumes from the soft-aes
crate as pure functions, are abstracted by a Cipher structure.  Errors,
which the Rust code carries as boxed message strings, are modelled by the
inductive type Err with one constructor per distinct message site.
-/

/-- Rust byte-slice indexing s[a..b], modelled on lists of bytes. -/
def bslice (s : List Nat) (a b : Nat) : List Nat := List.take (b - a) (List.drop a s)

/-- Rust char::is_ascii for every byte of a string: each byte value is below 128. -/
def allAscii (s : List Nat) : Bool := s.all (fun c => c < 128)

/-- Accumulator loop of decimal integer parsing: consumes ASCII digits, fails on
any other byte. -/
def decValAux : List Nat → Nat → Option Nat
  | [], acc => some acc
  | c :: r, acc =>
    if 48 ≤ c ∧ c ≤ 57 then decValAux r (acc * 10 + (c - 48)) else none

/-- Rust unsigned integer FromStr (used via str::parse::<u16> and parse::<u8>):
an optional leading ASCII plus sign, then at least one decimal digit; values
above the type maximum are rejected (PosOverflow). -/
def parseUnsignedDec (s : List Nat) (max : Nat) : Option Nat :=
  let body := match s with
    | c :: r => if c = 43 then r else s
    | [] => s
  match body with
  | [] => none
  | _ =>
    match decValAux body 0 with
    | none => none
    | some v => if v ≤ max then some v else none

/-- Value of one ASCII hex digit (both cases accepted, as by from_str_radix). -/
def hexDigitVal (c : Nat) : Option Nat :=
  if 48 ≤ c ∧ c ≤ 57 then some (c - 48)
  else if 65 ≤ c ∧ c ≤ 70 then some (c - 55)
  else if 97 ≤ c ∧ c ≤ 102 then some (c - 87)
  else none

/-- Accumulator loop of hexadecimal integer parsing. -/
def hexValAux : List Nat → Nat → Option Nat
  | [], acc => some acc
  | c :: r, acc =>
    match hexDigitVal c with
    | some d => hexValAux r (acc * 16 + d)
    | none => none

/-- Rust usize::from_str_radix(s, 16): an optional leading plus sign, then at
least one hex digit; overflow of the 64-bit usize range is rejected. -/
def parseUnsignedHex (s : List Nat) : Option Nat :=
  let body := match s with
    | c :: r => if c = 43 then r else s
    | [] => s
  match body with
  | [] => none
  | _ =>
    match hexValAux body 0 with
    | none => none
    | some v => if v ≤ 18446744073709551615 then some v else none

/-- Upper-case hex digit for a value below 16, as produced by formatting with X. -/
def hexUpperDigit (n : Nat) : Nat := if n < 10 then 48 + n else 55 + n

/-- Rust format specifier 02X applied to a value below 256. -/
def hex2 (n : Nat) : List Nat := [hexUpperDigit (n / 16), hexUpperDigit (n % 16)]

/-- Rust format specifier 04X applied to a value of at most 65535. -/
def hex4 (n : Nat) : List Nat :=
  [hexUpperDigit (n / 4096 % 16), hexUpperDigit (n / 256 % 16),
   hexUpperDigit (n / 16 % 16), hexUpperDigit (n % 16)]

/-- Rust format specifier 04 (zero-padded decimal) applied to a value of at
most 9999, as used for the key block length header field. -/
def dec4 (n : Nat) : List Nat :=
  [48 + n / 1000 % 10, 48 + n / 100 % 10, 48 + n / 10 % 10, 48 + n % 10]

/-- Rust format specifier 02 (zero-padded decimal) applied to a value of at
most 99, as used for the number of optional blocks header field. -/
def dec2 (n : Nat) : List Nat := [48 + n / 10 % 10, 48 + n % 10]

/-- Collaborator hex::encode_upper: two upper-case hex characters per byte. -/
def hexEncode : List Nat → List Nat
  | [] => []
  | b :: r => hexUpperDigit (b / 16) :: hexUpperDigit (b % 16) :: hexEncode r

/-- Collaborator hex::decode: fails on odd length or any non-hex character. -/
def hexDecode : List Nat → Option (List Nat)
  | [] => some []
  | [_] => none
  | a :: b :: r =>
    match hexDigitVal a, hexDigitVal b, hexDecode r with
    | some x, some y, some t => some ((16 * x + y) :: t)
    | _, _, _ => none

/-- Error taxonomy of the TR-31 engine: one constructor per distinct error
message site in the Rust source (the source raises boxed strings). -/
inductive Err where
  | optTooShort
  | optInvalidId
  | optExtTooShort
  | optInvalidExtLenField
  | optInvalidLenOfLen
  | optExtLenHexInvalid
  | optExtLenNotGreater255
  | optInvalidLengthFieldSize
  | optInvalidLengthFieldHex
  | optLengthTooSmall
  | optTooShortForLength
  | optIdNotSet
  | optDataNonAscii
  | optBlockTooLong
  | optUninitialized
  | hdrDataTooShort
  | hdrInvalidKbLengthField
  | hdrInvalidNumOptBlocksField
  | hdrInvalidVersionId
  | hdrInvalidKbLength
  | hdrInvalidKeyUsage
  | hdrInvalidAlgorithm
  | hdrInvalidModeOfUse
  | hdrInvalidKeyVersionNumber
  | hdrInvalidExportability
  | hdrTooManyOptBlocks
  | hdrInvalidReservedField
  | hdrInvalidLengthWithOptBlocks
  | hdrOptBlocksParseFailed (inner : Err)
  | hdrExportEmptyField
  | payloadUnderflow
  | payloadSeedTooShort
  | payloadTooShortForLength
  | payloadTooShortForKey
  | invalidKbpkLength
  | unsupportedVersion
  | blockLengthNotAligned
  | kbLengthMismatch
  | kbTooShort
  | hexDecodeFailed
  | macCheckFailed
deriving DecidableEq

/-- One node of the optional-block chain (Rust struct OptBlock).  The Rust
next pointer chains nodes into a singly linked list; the chain is modelled
as a Lean list of nodes, the empty list standing for the absent chain. -/
structure OptBlock where
  id : List Nat
  data : List Nat
  length : Nat
deriving DecidableEq

/-- Allowed optional block IDs (OptBlock::ALLOWED_IDS):
CT, HM, IK, KC, KP, KS, KV, PB, TS. -/
def allowedOptIds : List (List Nat) :=
  [[67, 84], [72, 77], [73, 75], [75, 67], [75, 80], [75, 83], [75, 86], [80, 66], [84, 83]]

/-- Length computed by OptBlock::set_length from the id and data fields:
id length plus two for the ordinary length field plus data length, plus six
more when that total reaches 256 (extended length field). -/
def canonLength (id data : List Nat) : Nat :=
  let m := id.length + 2 + data.length
  if m < 256 then m else m + 6

/-- OptBlock::new (with next set separately; chains are Lean lists here):
validates id membership and ASCII data, computes the length via set_length,
and rejects blocks longer than 65535. -/
def OptBlock.new (id data : List Nat) : Except Err OptBlock :=
  if id ∈ allowedOptIds then
    if id.length = 2 then
      if allAscii data then
        let L := canonLength id data
        if L > 65535 then .error .optBlockTooLong else .ok ⟨id, data, L⟩
      else .error .optDataNonAscii
    else .error .optIdNotSet
  else .error .optInvalidId

/-- OptBlock::len_from_str: a 2-character hex length field whose value must
be at least 4. -/
def len_from_str (s : List Nat) : Except Err Nat :=
  if s.length ≠ 2 then .error .optInvalidLengthFieldSize
  else
    match parseUnsignedHex s with
    | none => .error .optInvalidLengthFieldHex
    | some v => if v < 4 then .error .optLengthTooSmall else .ok v

/-- OptBlock::ext_len_from_str: a 6-character extended length field whose
first two characters must be the length-of-length 02 and whose remaining
four hex characters must encode a value strictly greater than 255. -/
def ext_len_from_str (s : List Nat) : Except Err Nat :=
  if s.length ≠ 6 then .error .optInvalidExtLenField
  else if bslice s 0 2 ≠ [48, 50] then .error .optInvalidLenOfLen
  else
    match parseUnsignedHex (bslice s 2 6) with
    | none => .error .optExtLenHexInvalid
    | some v => if v ≤ 255 then .error .optExtLenNotGreater255 else .ok v

/-- Parsing of a single optional block from the front of s, as done by the
body of OptBlock::new_from_str before its recursive step: read the id, read
the ordinary or extended length field, slice the data up to the parsed
length, and recompute the stored length from the data (set_data calls
set_length, which overwrites the parsed length). -/
def parseOneOpt (s : List Nat) : Except Err OptBlock :=
  if s.length < 4 then .error .optTooShort
  else if bslice s 0 2 ∈ allowedOptIds then
    let step : Except Err (Nat × Nat) :=
      if bslice s 2 4 = [48, 48] then
        if s.length < 256 then .error .optExtTooShort
        else
          match ext_len_from_str (bslice s 4 10) with
          | .error e => .error e
          | .ok L => .ok (L, 10)
      else
        match len_from_str (bslice s 2 4) with
        | .error e => .error e
        | .ok L => .ok (L, 4)
    match step with
    | .error e => .error e
    | .ok (L, off) =>
      if s.length < L then .error .optTooShortForLength
      else
        let d := bslice s off L
        if (bslice s 0 2).length = 2 then
          if allAscii d then
            let newLen := canonLength (bslice s 0 2) d
            if newLen > 65535 then .error .optBlockTooLong
            else .ok ⟨bslice s 0 2, d, newLen⟩
          else .error .optDataNonAscii
        else .error .optIdNotSet
  else .error .optInvalidId

/-- OptBlock::new_from_str: parses one block, then, while more than one
block is expected, recursively parses the rest of the string starting at
the (recomputed) length of the block just parsed. -/
def OptBlock.new_from_str : List Nat → Nat → Except Err (List OptBlock)
  | s, m + 2 =>
    match parseOneOpt s with
    | .error e => .error e
    | .ok b =>
      match OptBlock.new_from_str (List.drop b.length s) (m + 1) with
      | .error e => .error e
      | .ok t => .ok (b :: t)
  | s, _ =>
    match parseOneOpt s with
    | .error e => .error e
    | .ok b => .ok [b]

/-- Length field bytes emitted by OptBlock::export_str: 2 upper-case hex
digits below 256, otherwise the marker 0002 followed by 4 hex digits. -/
def lenFieldBytes (L : Nat) : List Nat :=
  if L < 256 then hex2 L else [48, 48, 48, 50] ++ hex4 L

/-- OptBlock::export_str for a single node: rejects uninitialized nodes
(length below 4), otherwise emits id, length field and data. -/
def OptBlock.export_str (b : OptBlock) : Except Err (List Nat) :=
  if b.length < 4 then .error .optUninitialized
  else .ok (b.id ++ lenFieldBytes b.length ++ b.data)

/-- Export of a whole chain: each node followed by the export of its next
pointer (OptBlock::export_str recursion over the chain). -/
def exportChain : List OptBlock → Except Err (List Nat)
  | [] => .ok []
  | b :: t =>
    match b.export_str with
    | .error e => .error e
    | .ok x =>
      match exportChain t with
      | .error e => .error e
      | .ok y => .ok (x ++ y)

/-- OptBlock::total_length: the sum of the stored lengths along the chain. -/
def chainTotalLength (l : List OptBlock) : Nat := (l.map OptBlock.length).sum

/-- Header of a TR-31 key block (Rust struct KeyBlockHeader).  kb_length is
the u16 length field, num_opt_blocks the u8 optional block count; the
optional-block chain is a list (empty list = Rust None). -/
structure KeyBlockHeader where
  version_id : List Nat
  kb_length : Nat
  key_usage : List Nat
  algorithm : List Nat
  mode_of_use : List Nat
  key_version_number : List Nat
  exportability : List Nat
  num_opt_blocks : Nat
  reserved_field : List Nat
  opt_blocks : List OptBlock
deriving DecidableEq

/-- KeyBlockHeader::ALLOWED_VERSION_IDS: A, B, C, D. -/
def allowedVersionIds : List (List Nat) := [[65], [66], [67], [68]]

/-- KeyBlockHeader::ALLOWED_KEY_USAGES (29 two-character values). -/
def allowedKeyUsages : List (List Nat) :=
  [[66, 48], [66, 49], [66, 50], [67, 48], [68, 48], [68, 49], [68, 50],
   [69, 48], [69, 49], [69, 50], [69, 51], [69, 52], [69, 53], [69, 54],
   [75, 48], [75, 49], [75, 50], [75, 51],
   [77, 48], [77, 49], [77, 50], [77, 51], [77, 52], [77, 53], [77, 54], [77, 55], [77, 56],
   [80, 48], [83, 48]]

/-- KeyBlockHeader::ALLOWED_ALGORITHMS: A, D, E, H, R, S, T. -/
def allowedAlgorithms : List (List Nat) := [[65], [68], [69], [72], [82], [83], [84]]

/-- KeyBlockHeader::ALLOWED_MODES_OF_USE: B, C, D, E, G, N, S, T, V, X, Y. -/
def allowedModesOfUse : List (List Nat) :=
  [[66], [67], [68], [69], [71], [78], [83], [84], [86], [88], [89]]

/-- KeyBlockHeader::ALLOWED_EXPORTABILITIES: E, N, S. -/
def allowedExportabilities : List (List Nat) := [[69], [78], [83]]

/-- KeyBlockHeader::len: 16 fixed bytes plus the total length of the
optional-block chain. -/
def KeyBlockHeader.len (h : KeyBlockHeader) : Nat := 16 + chainTotalLength h.opt_blocks

/-- KeyBlockHeader::set_kb_length: rejects values above 9999, otherwise
stores the value. -/
def KeyBlockHeader.set_kb_length (h : KeyBlockHeader) (v : Nat) : Except Err KeyBlockHeader :=
  if v > 9999 then .error .hdrInvalidKbLength
  else .ok ⟨h.version_id, v, h.key_usage, h.algorithm, h.mode_of_use,
            h.key_version_number, h.exportability, h.num_opt_blocks,
            h.reserved_field, h.opt_blocks⟩

/-- KeyBlockHeader::new_from_str: requires at least 16 bytes, parses the
numeric fields (length, then count) before running the validating setters
in source order, and, when the optional block count is positive, requires
at least 20 bytes and delegates the remainder to OptBlock::new_from_str. -/
def KeyBlockHeader.new_from_str (s : List Nat) : Except Err KeyBlockHeader :=
  if s.length < 16 then .error .hdrDataTooShort
  else
    match parseUnsignedDec (bslice s 1 5) 65535 with
    | none => .error .hdrInvalidKbLengthField
    | some kbl =>
      match parseUnsignedDec (bslice s 12 14) 255 with
      | none => .error .hdrInvalidNumOptBlocksField
      | some nob =>
        if bslice s 0 1 ∉ allowedVersionIds then .error .hdrInvalidVersionId
        else if kbl > 9999 then .error .hdrInvalidKbLength
        else if bslice s 5 7 ∉ allowedKeyUsages then .error .hdrInvalidKeyUsage
        else if bslice s 7 8 ∉ allowedAlgorithms then .error .hdrInvalidAlgorithm
        else if bslice s 8 9 ∉ allowedModesOfUse then .error .hdrInvalidModeOfUse
        else if (bslice s 9 11).length ≠ 2 ∨ ¬ allAscii (bslice s 9 11) then
          .error .hdrInvalidKeyVersionNumber
        else if bslice s 11 12 ∉ allowedExportabilities then .error .hdrInvalidExportability
        else if nob > 99 then .error .hdrTooManyOptBlocks
        else if bslice s 14 16 ≠ [48, 48] then .error .hdrInvalidReservedField
        else if nob > 0 ∧ s.length < 20 then .error .hdrInvalidLengthWithOptBlocks
        else if nob > 0 then
          match OptBlock.new_from_str (List.drop 16 s) nob with
          | .error e => .error (.hdrOptBlocksParseFailed e)
          | .ok chain =>
            .ok ⟨bslice s 0 1, kbl, bslice s 5 7, bslice s 7 8, bslice s 8 9,
                 bslice s 9 11, bslice s 11 12, nob, bslice s 14 16, chain⟩
        else
          .ok ⟨bslice s 0 1, kbl, bslice s 5 7, bslice s 7 8, bslice s 8 9,
               bslice s 9 11, bslice s 11 12, nob, bslice s 14 16, []⟩

/-- Fixed-field bytes emitted by KeyBlockHeader::export_str, before the
optional blocks are appended. -/
def headerFixedBytes (h : KeyBlockHeader) : List Nat :=
  h.version_id ++ dec4 h.kb_length ++ h.key_usage ++ h.algorithm ++ h.mode_of_use ++
    h.key_version_number ++ h.exportability ++ dec2 h.num_opt_blocks ++ h.reserved_field

/-- KeyBlockHeader::export_str: rejects empty fields or a zero length, then
emits the fixed fields followed by the exported optional-block chain. -/
def KeyBlockHeader.export_str (h : KeyBlockHeader) : Except Err (List Nat) :=
  if h.version_id = [] ∨ h.key_usage = [] ∨ h.algorithm = [] ∨ h.mode_of_use = [] ∨
      h.key_version_number = [] ∨ h.exportability = [] ∨ h.reserved_field = [] ∨
      h.kb_length = 0 then
    .error .hdrExportEmptyField
  else
    match exportChain h.opt_blocks with
    | .error e => .error e
    | .ok ob => .ok (headerFixedBytes h ++ ob)

/-- KeyBlockHeader::finalize: with block size 16 for version D and 8
otherwise, appends a PB padding block (data all ASCII zeros, at least 6
bytes total, so the remainder is bumped by a full block when below 6) when
optional blocks exist and the header length is not block aligned. -/
def KeyBlockHeader.finalize (h : KeyBlockHeader) : Except Err KeyBlockHeader :=
  let block_size := if h.version_id = [68] then 16 else 8
  let L := h.len
  match h.opt_blocks with
  | [] => .ok h
  | _ :: _ =>
    if L % block_size ≠ 0 then
      let pn0 := block_size - L % block_size
      let pn := if pn0 < 6 then pn0 + block_size else pn0
      match OptBlock.new [80, 66] (List.replicate (pn - 4) 48) with
      | .error e => .error e
      | .ok pb =>
        .ok ⟨h.version_id, h.kb_length, h.key_usage, h.algorithm, h.mode_of_use,
             h.key_version_number, h.exportability, h.num_opt_blocks + 1,
             h.reserved_field, h.opt_blocks ++ [pb]⟩
    else .ok h

/-- calculate_padding_length (payload.rs): effective key length is the
maximum of the key length and the masked length; the total payload length
rounds 2 + effective length up to a multiple of the cipher block length;
the padding length is the total minus the raw section 2 + key length. -/
def calculate_padding_length (key_len masked_key_length cipher_block_length : Nat) :
    Except Err Nat :=
  let raw_key_section_length := 2 + key_len
  let effective_key_length := max key_len masked_key_length
  let total_payload_length :=
    (2 + effective_key_length + (cipher_block_length - 1)) / cipher_block_length *
      cipher_block_length
  if total_payload_length < raw_key_section_length then .error .payloadUnderflow
  else .ok (total_payload_length - raw_key_section_length)

/-- construct_payload (payload.rs): the 2-byte big-endian key bit length
(computed in u16 arithmetic, hence reduced modulo 2^16), the key, then the
first padding-length bytes of the random seed, which must be long enough. -/
def construct_payload (key : List Nat) (masked_key_length cipher_block_length : Nat)
    (random_seed : List Nat) : Except Err (List Nat) :=
  match calculate_padding_length key.length masked_key_length cipher_block_length with
  | .error e => .error e
  | .ok padding_length =>
    let bits := 8 * (key.length % 65536) % 65536
    if random_seed.length < padding_length then .error .payloadSeedTooShort
    else .ok ([bits / 256, bits % 256] ++ key ++ List.take padding_length random_seed)

/-- extract_key_from_payload (payload.rs): reads the 2-byte big-endian bit
length, divides by 8 and slices that many key bytes from offset 2. -/
def extract_key_from_payload (payload : List Nat) : Except Err (List Nat) :=
  if payload.length < 2 then .error .payloadTooShortForLength
  else
    let key_length_bits := 256 * payload.headI + (payload.tail).headI
    let key_length_bytes := key_length_bits / 8
    if payload.length < 2 + key_length_bytes then .error .payloadTooShortForKey
    else .ok (bslice payload 2 (2 + key_length_bytes))

/-- Abstract interface of the external soft-aes collaborators, consumed as
pure functions: CMAC (data, key), CBC encryption and CBC decryption
(data, key, iv). -/
structure Cipher where
  cmac : List Nat → List Nat → List Nat
  enc : List Nat → List Nat → List Nat → List Nat
  dec : List Nat → List Nat → List Nat → List Nat

/-- Derivation input constants of key_derivations.rs (KBEK then KBAK, for
AES-128, AES-192 and AES-256). -/
def AES_128_KDI_KBEK : List Nat := [1, 0, 0, 0, 0, 2, 0, 128]

/-- Derivation input constant AES_128_KDI_KBAK. -/
def AES_128_KDI_KBAK : List Nat := [1, 0, 1, 0, 0, 2, 0, 128]

/-- Derivation input constant AES_192_KDI_KBEK_1. -/
def AES_192_KDI_KBEK_1 : List Nat := [1, 0, 0, 0, 0, 3, 0, 192]

/-- Derivation input constant AES_192_KDI_KBEK_2. -/
def AES_192_KDI_KBEK_2 : List Nat := [2, 0, 0, 0, 0, 3, 0, 192]

/-- Derivation input constant AES_192_KDI_KBAK_1. -/
def AES_192_KDI_KBAK_1 : List Nat := [1, 0, 1, 0, 0, 3, 0, 192]

/-- Derivation input constant AES_192_KDI_KBAK_2. -/
def AES_192_KDI_KBAK_2 : List Nat := [2, 0, 1, 0, 0, 3, 0, 192]

/-- Derivation input constant AES_256_KDI_KBEK_1. -/
def AES_256_KDI_KBEK_1 : List Nat := [1, 0, 0, 0, 0, 4, 1, 0]

/-- Derivation input constant AES_256_KDI_KBEK_2. -/
def AES_256_KDI_KBEK_2 : List Nat := [2, 0, 0, 0, 0, 4, 1, 0]

/-- Derivation input constant AES_256_KDI_KBAK_1. -/
def AES_256_KDI_KBAK_1 : List Nat := [1, 0, 1, 0, 0, 4, 1, 0]

/-- Derivation input constant AES_256_KDI_KBAK_2. -/
def AES_256_KDI_KBAK_2 : List Nat := [2, 0, 1, 0, 0, 4, 1, 0]

/-- derive_keys_version_d: dispatch on the KBPK length; one CMAC each for
16 bytes, two concatenated CMACs truncated to 24 bytes for 24 bytes, two
concatenated CMACs for 32 bytes, and an error for any other length. -/
def derive_keys_version_d (C : Cipher) (kbpk : List Nat) :
    Except Err (List Nat × List Nat) :=
  if kbpk.length = 16 then
    .ok (C.cmac AES_128_KDI_KBEK kbpk, C.cmac AES_128_KDI_KBAK kbpk)
  else if kbpk.length = 24 then
    .ok (List.take 24 (C.cmac AES_192_KDI_KBEK_1 kbpk ++ C.cmac AES_192_KDI_KBEK_2 kbpk),
         List.take 24 (C.cmac AES_192_KDI_KBAK_1 kbpk ++ C.cmac AES_192_KDI_KBAK_2 kbpk))
  else if kbpk.length = 32 then
    .ok (C.cmac AES_256_KDI_KBEK_1 kbpk ++ C.cmac AES_256_KDI_KBEK_2 kbpk,
         C.cmac AES_256_KDI_KBAK_1 kbpk ++ C.cmac AES_256_KDI_KBAK_2 kbpk)
  else .error .invalidKbpkLength

/-- tr31_wrap (tr31.rs): version check, key derivation, payload
construction, total block length check against block size 16, header
length update (with the Rust truncating cast of usize to u16, i.e. modulo
2^16), header export, CMAC over header bytes and payload, CBC encryption
of the payload under the leading 16 MAC bytes as IV, and assembly as
header followed by upper-case hex of ciphertext and MAC. -/
def tr31_wrap (C : Cipher) (kbpk : List Nat) (header : KeyBlockHeader) (key : List Nat)
    (masked_key_len : Nat) (random_seed : List Nat) : Except Err (List Nat) :=
  if header.version_id ≠ [68] then .error .unsupportedVersion
  else
    match derive_keys_version_d C kbpk with
    | .error e => .error e
    | .ok (kbek, kbak) =>
      match construct_payload key masked_key_len 16 random_seed with
      | .error e => .error e
      | .ok payload =>
        let total_block_length := header.len + payload.length * 2 + 16 * 2
        if total_block_length % 16 ≠ 0 then .error .blockLengthNotAligned
        else
          match header.set_kb_length (total_block_length % 65536) with
          | .error e => .error e
          | .ok h2 =>
            match h2.export_str with
            | .error e => .error e
            | .ok header_str =>
              let mac := C.cmac (header_str ++ payload) kbak
              let iv := List.take 16 mac
              let encrypted_payload := C.enc payload kbek iv
              .ok (header_str ++ hexEncode encrypted_payload ++ hexEncode mac)

/-- tr31_unwrap (tr31.rs): header parsing, length consistency check against
the declared kb_length, minimum length check, version check, key
derivation, hex decoding of ciphertext and MAC, CBC decryption under the
leading 16 MAC bytes as IV, MAC recomputation over header bytes and
decrypted payload, MAC comparison, and key extraction. -/
def tr31_unwrap (C : Cipher) (kbpk : List Nat) (key_block : List Nat) :
    Except Err (KeyBlockHeader × List Nat) :=
  match KeyBlockHeader.new_from_str key_block with
  | .error e => .error e
  | .ok header =>
    let header_len := header.len
    let key_block_len := key_block.length
    if key_block_len ≠ header.kb_length then .error .kbLengthMismatch
    else if key_block_len < 16 + 2 * 16 + 2 * 16 then .error .kbTooShort
    else if header.version_id ≠ [68] then .error .unsupportedVersion
    else
      let encrypted_payload_hex := bslice key_block header_len (key_block_len - 16 * 2)
      let mac_hex := List.drop (key_block_len - 16 * 2) key_block
      match derive_keys_version_d C kbpk with
      | .error e => .error e
      | .ok (kbek, kbak) =>
        match hexDecode encrypted_payload_hex with
        | none => .error .hexDecodeFailed
        | some encrypted_payload =>
          match hexDecode mac_hex with
          | none => .error .hexDecodeFailed
          | some mac =>
            let iv := List.take 16 mac
            let decrypted_payload := C.dec encrypted_payload kbek iv
            let mac_input := List.take header_len key_block ++ decrypted_payload
            let calculated_mac := C.cmac mac_input kbak
            if mac ≠ calculated_mac then .error .macCheckFailed
            else
              match extract_key_from_payload decrypted_payload with
              | .error e => .error e
              | .ok key => .ok (header, key)

/-- Observer mirroring the steps of tr31_unwrap up to the MAC comparison:
returns the transmitted MAC and the recomputed MAC when every earlier
stage succeeds, none otherwise. -/
def unwrapMacs (C : Cipher) (kbpk : List Nat) (key_block : List Nat) :
    Option (List Nat × List Nat) :=
  match KeyBlockHeader.new_from_str key_block with
  | .error _ => none
  | .ok header =>
    let header_len := header.len
    let key_block_len := key_block.length
    if key_block_len ≠ header.kb_length then none
    else if key_block_len < 16 + 2 * 16 + 2 * 16 then none
    else if header.version_id ≠ [68] then none
    else
      let encrypted_payload_hex := bslice key_block header_len (key_block_len - 16 * 2)
      let mac_hex := List.drop (key_block_len - 16 * 2) key_block
      match derive_keys_version_d C kbpk with
      | .error _ => none
      | .ok (kbek, kbak) =>
        match hexDecode encrypted_payload_hex with
        | none => none
        | some encrypted_payload =>
          match hexDecode mac_hex with
          | none => none
          | some mac =>
            let iv := List.take 16 mac
            let decrypted_payload := C.dec encrypted_payload kbek iv
            let mac_input := List.take header_len key_block ++ decrypted_payload
            let calculated_mac := C.cmac mac_input kbak
            some (mac, calculated_mac)

/-- Concrete cipher used to instantiate closed witnesses: a constant
16-byte CMAC and identity encryption and decryption. -/
def idCipher : Cipher :=
  ⟨fun _ _ => List.replicate 16 0, fun p _ _ => p, fun c _ _ => c⟩

-- Decidable equality for Except results, used by concrete evaluations.
deriving instance DecidableEq for Except

/-- Canonical wire form of one optional block node, as emitted by
OptBlock::export_str. -/
def nodeBytes (b : OptBlock) : List Nat := b.id ++ lenFieldBytes b.length ++ b.data

/-- Wire form of a whole chain. -/
def chainBytes : List OptBlock → List Nat
  | [] => []
  | b :: t => nodeBytes b ++ chainBytes t

/-- Invariant maintained by OptBlock::new and OptBlock::set_data: a known
id, ASCII data, and the stored length computed by set_length within the
representable range. -/
def NodeValid (b : OptBlock) : Prop :=
  b.id ∈ allowedOptIds ∧ allAscii b.data = true ∧
    b.length = canonLength b.id b.data ∧ b.length ≤ 65535

instance : DecidablePred NodeValid := fun b => by
  unfold NodeValid
  infer_instance

/-- Invariant maintained by the KeyBlockHeader setters: every enumerated
field belongs to its allowed set, the length and count fields are in range,
the reserved field is 00, the count matches the chain, and every chain node
is valid.  Positivity of kb_length is required by export_str. -/
def HeaderValid (h : KeyBlockHeader) : Prop :=
  h.version_id ∈ allowedVersionIds ∧
    0 < h.kb_length ∧ h.kb_length ≤ 9999 ∧
    h.key_usage ∈ allowedKeyUsages ∧
    h.algorithm ∈ allowedAlgorithms ∧
    h.mode_of_use ∈ allowedModesOfUse ∧
    h.key_version_number.length = 2 ∧ allAscii h.key_version_number = true ∧
    h.exportability ∈ allowedExportabilities ∧
    h.reserved_field = [48, 48] ∧
    h.num_opt_blocks = h.opt_blocks.length ∧ h.num_opt_blocks ≤ 99 ∧
    (∀ b ∈ h.opt_blocks, NodeValid b)

instance : DecidablePred HeaderValid := fun h => by
  unfold HeaderValid
  infer_instance

/-- Example header D P0 A E 00 E with no optional blocks, as in the module
documentation of tr31.rs. -/
def hdrD : KeyBlockHeader :=
  ⟨[68], 0, [80, 48], [65], [69], [48, 48], [69], 0, [48, 48], []⟩

/-- Example header with one 16-byte KS optional block, giving an already
block-aligned 32-byte header. -/
def hdrKS : KeyBlockHeader :=
  ⟨[68], 48, [80, 48], [65], [69], [48, 48], [69], 1, [48, 48],
    [⟨[75, 83], List.replicate 12 48, 16⟩]⟩

/-- Key block produced by tr31_wrap (with the constant test cipher) for a
16-byte key masked to 32750 bytes: 65552 characters in total, while its
header declares length 16 because of the truncating u16 cast. -/
def c1KeyBlob : List Nat :=
  [68, 48, 48, 49, 54, 80, 48, 65, 69, 48, 48, 69, 48, 48, 48, 48] ++
    hexEncode ([0, 128] ++ List.replicate 16 2 ++ List.replicate 32734 3) ++
    hexEncode (List.replicate 16 0)

/-- A list of length one is a singleton. -/
theorem list_len_one {α : Type} {l : List α} (h : l.length = 1) : ∃ a, l = [a] := by
  rcases l with _ | ⟨a, _ | _⟩ <;> simp_all

/-- A list of length two is an explicit pair. -/
theorem list_len_two {α : Type} {l : List α} (h : l.length = 2) : ∃ a b, l = [a, b] := by
  rcases l with _ | ⟨a, _ | ⟨b, _ | _⟩⟩ <;> simp_all

/-- A list of length four is an explicit quadruple. -/
theorem list_len_four {α : Type} {l : List α} (h : l.length = 4) :
    ∃ a b c d, l = [a, b, c, d] := by
  rcases l with _ | ⟨a, _ | ⟨b, _ | ⟨c, _ | ⟨d, _ | _⟩⟩⟩⟩ <;> simp_all

/-- Slice of a concatenation whose prefix length matches the slice start. -/
theorem bslice_eq {s p m r : List Nat} {i j : Nat} (hs : s = p ++ (m ++ r))
    (hp : p.length = i) (hm : m.length = j - i) : bslice s i j = m := by
  subst hs
  unfold bslice
  rw [List.drop_left' hp, List.take_left' hm]

/-- Step of decValAux on an ASCII digit byte. -/
theorem decValAux_digit (x : Nat) (hx : x ≤ 9) (l : List Nat) (acc : Nat) :
    decValAux ((48 + x) :: l) acc = decValAux l (acc * 10 + x) := by
  simp only [decValAux]
  rw [if_pos (by omega)]
  congr 1
  omega

/-- Decimal parsing recovers a value formatted with the 04 specifier. -/
theorem parseUnsignedDec_dec4 (n : Nat) (h : n ≤ 9999) :
    parseUnsignedDec (dec4 n) 65535 = some n := by
  have e : decValAux (dec4 n) 0 = some n := by
    unfold dec4
    rw [decValAux_digit _ (by omega), decValAux_digit _ (by omega),
      decValAux_digit _ (by omega), decValAux_digit _ (by omega)]
    simp only [decValAux]
    congr 1
    omega
  unfold parseUnsignedDec
  simp only [dec4] at e ⊢
  rw [if_neg (by omega)]
  simp only [e]
  rw [if_pos (by omega)]

/-- Decimal parsing recovers a value formatted with the 02 specifier. -/
theorem parseUnsignedDec_dec2 (n : Nat) (h : n ≤ 99) :
    parseUnsignedDec (dec2 n) 255 = some n := by
  have e : decValAux (dec2 n) 0 = some n := by
    unfold dec2
    rw [decValAux_digit _ (by omega), decValAux_digit _ (by omega)]
    simp only [decValAux]
    congr 1
    omega
  unfold parseUnsignedDec
  simp only [dec2] at e ⊢
  rw [if_neg (by omega)]
  simp only [e]
  rw [if_pos (by omega)]

/-- Upper-case hex digits are at least ASCII 48. -/
theorem hexUpperDigit_ge (v : Nat) : 48 ≤ hexUpperDigit v := by
  unfold hexUpperDigit
  split <;> omega

/-- An upper-case hex digit equals ASCII zero only for the value zero. -/
theorem hexUpperDigit_eq_48 {v : Nat} (h : hexUpperDigit v = 48) : v = 0 := by
  unfold hexUpperDigit at h
  split at h <;> omega

/-- Hex digit parsing inverts hex digit formatting below 16. -/
theorem hexDigitVal_hexUpperDigit (v : Nat) (h : v < 16) :
    hexDigitVal (hexUpperDigit v) = some v := by
  interval_cases v <;> rfl

/-- Step of hexValAux on a valid hex digit byte. -/
theorem hexValAux_cons {c d : Nat} (hc : hexDigitVal c = some d) (l : List Nat) (acc : Nat) :
    hexValAux (c :: l) acc = hexValAux l (acc * 16 + d) := by
  simp [hexValAux, hc]

/-- Hex parsing recovers a value formatted with the 02X specifier. -/
theorem parseUnsignedHex_hex2 (L : Nat) (h : L < 256) :
    parseUnsignedHex (hex2 L) = some L := by
  have d1 : hexDigitVal (hexUpperDigit (L / 16)) = some (L / 16) :=
    hexDigitVal_hexUpperDigit _ (by omega)
  have d2 : hexDigitVal (hexUpperDigit (L % 16)) = some (L % 16) :=
    hexDigitVal_hexUpperDigit _ (by omega)
  have e : hexValAux (hex2 L) 0 = some L := by
    unfold hex2
    rw [hexValAux_cons d1, hexValAux_cons d2]
    simp only [hexValAux]
    congr 1
    omega
  unfold parseUnsignedHex
  simp only [hex2] at e ⊢
  rw [if_neg (by have := hexUpperDigit_ge (L / 16); omega)]
  simp only [e]
  rw [if_pos (by omega)]

/-- Hex parsing recovers a value formatted with the 04X specifier. -/
theorem parseUnsignedHex_hex4 (L : Nat) (h : L ≤ 65535) :
    parseUnsignedHex (hex4 L) = some L := by
  have d1 : hexDigitVal (hexUpperDigit (L / 4096 % 16)) = some (L / 4096 % 16) :=
    hexDigitVal_hexUpperDigit _ (by omega)
  have d2 : hexDigitVal (hexUpperDigit (L / 256 % 16)) = some (L / 256 % 16) :=
    hexDigitVal_hexUpperDigit _ (by omega)
  have d3 : hexDigitVal (hexUpperDigit (L / 16 % 16)) = some (L / 16 % 16) :=
    hexDigitVal_hexUpperDigit _ (by omega)
  have d4 : hexDigitVal (hexUpperDigit (L % 16)) = some (L % 16) :=
    hexDigitVal_hexUpperDigit _ (by omega)
  have e : hexValAux (hex4 L) 0 = some L := by
    unfold hex4
    rw [hexValAux_cons d1, hexValAux_cons d2, hexValAux_cons d3, hexValAux_cons d4]
    simp only [hexValAux]
    congr 1
    omega
  unfold parseUnsignedHex
  simp only [hex4] at e ⊢
  rw [if_neg (by have := hexUpperDigit_ge (L / 4096 % 16); omega)]
  simp only [e]
  rw [if_pos (by omega)]

/-- The 02X formatting of a length of at least 4 is never the extended
length marker 00. -/
theorem hex2_ne_marker {L : Nat} (h4 : 4 ≤ L) : hex2 L ≠ [48, 48] := by
  unfold hex2
  intro he
  have h1 : hexUpperDigit (L / 16) = 48 := by injection he
  have h2 : hexUpperDigit (L % 16) = 48 := by
    injection he with _ he2
    injection he2
  have := hexUpperDigit_eq_48 h1
  have := hexUpperDigit_eq_48 h2
  omega

/-- Length of hex encoding: two characters per byte. -/
theorem hexEncode_length (l : List Nat) : (hexEncode l).length = 2 * l.length := by
  induction l with
  | nil => rfl
  | cons b r ih =>
    simp only [hexEncode, List.length_cons, ih]
    omega

/-- Hex decoding inverts upper-case hex encoding on genuine byte lists. -/
theorem hexDecode_hexEncode (l : List Nat) (h : ∀ b ∈ l, b < 256) :
    hexDecode (hexEncode l) = some l := by
  induction l with
  | nil => rfl
  | cons b r ih =>
    have hb : b < 256 := h b (by simp)
    have hr : ∀ x ∈ r, x < 256 := fun x hx => h x (by simp [hx])
    have d1 : hexDigitVal (hexUpperDigit (b / 16)) = some (b / 16) :=
      hexDigitVal_hexUpperDigit _ (by omega)
    have d2 : hexDigitVal (hexUpperDigit (b % 16)) = some (b % 16) :=
      hexDigitVal_hexUpperDigit _ (by omega)
    simp only [hexEncode, hexDecode, d1, d2, ih hr]
    congr 2
    omega

/-- Every allowed optional block id has two characters. -/
theorem allowedOptIds_length : ∀ x ∈ allowedOptIds, x.length = 2 := by decide

/-- Shape of a valid node: two-character id and length of the canonical
ordinary or extended form. -/
theorem nodeValid_cases {b : OptBlock} (hv : NodeValid b) :
    b.id.length = 2 ∧
      (b.length = 4 + b.data.length ∧ b.length < 256 ∨
        b.length = 10 + b.data.length ∧ 256 ≤ 4 + b.data.length) := by
  obtain ⟨hid, _, hlen, _⟩ := hv
  have h2 : b.id.length = 2 := allowedOptIds_length _ hid
  refine ⟨h2, ?_⟩
  unfold canonLength at hlen
  rw [h2] at hlen
  by_cases hc : 2 + 2 + b.data.length < 256
  · left
    rw [if_pos hc] at hlen
    omega
  · right
    rw [if_neg hc] at hlen
    omega

/-- A valid node has length at least 4. -/
theorem nodeValid_four {b : OptBlock} (hv : NodeValid b) : 4 ≤ b.length := by
  obtain ⟨_, hcase⟩ := nodeValid_cases hv
  omega

/-- The wire form of a valid node occupies exactly its stored length. -/
theorem nodeBytes_length {b : OptBlock} (hv : NodeValid b) :
    (nodeBytes b).length = b.length := by
  obtain ⟨h2, hcase⟩ := nodeValid_cases hv
  unfold nodeBytes lenFieldBytes
  rcases hcase with ⟨he, hlt⟩ | ⟨he, hge⟩
  · rw [if_pos hlt]
    simp [hex2, h2]
    omega
  · rw [if_neg (by omega)]
    simp [hex4, h2]
    omega

/-- The wire form of a valid chain occupies exactly its total length. -/
theorem chainBytes_length {l : List OptBlock} (hv : ∀ b ∈ l, NodeValid b) :
    (chainBytes l).length = chainTotalLength l := by
  induction l with
  | nil => rfl
  | cons b t ih =>
    simp only [chainBytes, chainTotalLength, List.length_append, List.map_cons, List.sum_cons]
    rw [nodeBytes_length (hv b (by simp))]
    have := ih (fun x hx => hv x (by simp [hx]))
    unfold chainTotalLength at this
    omega

/-- Export of a valid node succeeds and produces its wire form. -/
theorem export_str_nodeBytes {b : OptBlock} (hv : NodeValid b) :
    b.export_str = .ok (nodeBytes b) := by
  unfold OptBlock.export_str
  rw [if_neg (by have := nodeValid_four hv; omega)]
  rfl

/-- Export of a valid chain succeeds and produces its wire form. -/
theorem exportChain_chainBytes {l : List OptBlock} (hv : ∀ b ∈ l, NodeValid b) :
    exportChain l = .ok (chainBytes l) := by
  induction l with
  | nil => rfl
  | cons b t ih =>
    simp only [exportChain, chainBytes]
    rw [export_str_nodeBytes (hv b (by simp)), ih (fun x hx => hv x (by simp [hx]))]

/-- Slice starting at 0 of a concatenation. -/
theorem bslice_start {s m r : List Nat} {j : Nat} (hs : s = m ++ r) (hm : m.length = j) :
    bslice s 0 j = m := by
  subst hs
  unfold bslice
  rw [Nat.sub_zero, List.drop_zero, List.take_left' hm]

/-- Ordinary length field parsing on the 02X form of a valid length. -/
theorem len_from_str_hex2 {L : Nat} (h4 : 4 ≤ L) (hlt : L < 256) :
    len_from_str (hex2 L) = .ok L := by
  unfold len_from_str
  rw [if_neg (by simp [hex2])]
  rw [parseUnsignedHex_hex2 _ hlt]
  simp only []
  rw [if_neg (by omega)]

/-- Extended length field parsing on the canonical 02-prefixed form of a
valid extended length. -/
theorem ext_len_from_str_hex4 {L : Nat} (h255 : 255 < L) (hle : L ≤ 65535) :
    ext_len_from_str ([48, 50] ++ hex4 L) = .ok L := by
  unfold ext_len_from_str
  rw [if_neg (by simp [hex4])]
  rw [bslice_start (m := [48, 50]) (r := hex4 L) rfl (by simp)]
  rw [if_neg (by simp)]
  rw [bslice_eq (p := [48, 50]) (m := hex4 L) (r := []) (i := 2) (j := 6)
    (by simp) (by simp) (by simp [hex4])]
  rw [parseUnsignedHex_hex4 _ hle]
  simp only []
  rw [if_neg (by omega)]

/-- Parsing one optional block from the wire form of a valid node followed
by arbitrary bytes recovers exactly that node. -/
theorem parseOneOpt_nodeBytes {b : OptBlock} (hv : NodeValid b) (rest : List Nat) :
    parseOneOpt (nodeBytes b ++ rest) = .ok b := by
  obtain ⟨hid, hascii, hcanon, h65⟩ := hv
  obtain ⟨h2, hcase⟩ := nodeValid_cases ⟨hid, hascii, hcanon, h65⟩
  have h4 : 4 ≤ b.length := nodeValid_four ⟨hid, hascii, hcanon, h65⟩
  have hnd : (nodeBytes b).length = b.length := nodeBytes_length ⟨hid, hascii, hcanon, h65⟩
  have hsl : (nodeBytes b ++ rest).length = b.length + rest.length := by
    simp [hnd]
  have hnlt4 : ¬ (nodeBytes b ++ rest).length < 4 := by omega
  have hnL : ¬ (nodeBytes b ++ rest).length < b.length := by omega
  rcases hcase with ⟨heq, hlt⟩ | ⟨heq, hge⟩
  · -- ordinary length field
    have hlf : lenFieldBytes b.length = hex2 b.length := if_pos hlt
    have eid : bslice (nodeBytes b ++ rest) 0 2 = b.id :=
      bslice_start (m := b.id) (r := lenFieldBytes b.length ++ (b.data ++ rest))
        (by simp [nodeBytes, List.append_assoc]) h2
    have e24 : bslice (nodeBytes b ++ rest) 2 4 = hex2 b.length :=
      bslice_eq (p := b.id) (m := hex2 b.length) (r := b.data ++ rest)
        (by simp [nodeBytes, hlf, List.append_assoc]) h2 (by simp [hex2])
    have e4L : bslice (nodeBytes b ++ rest) 4 b.length = b.data :=
      bslice_eq (p := b.id ++ hex2 b.length) (m := b.data) (r := rest)
        (by simp [nodeBytes, hlf, List.append_assoc]) (by simp [hex2, h2]) (by omega)
    unfold parseOneOpt
    rw [if_neg hnlt4, eid, e24]
    rw [if_pos hid, if_neg (hex2_ne_marker h4), len_from_str_hex2 h4 hlt]
    dsimp only
    rw [if_neg hnL, e4L, if_pos h2, if_pos hascii, ← hcanon, if_neg (by omega)]
  · -- extended length field
    have h256 : 256 ≤ b.length := by omega
    have hlf : lenFieldBytes b.length = [48, 48, 48, 50] ++ hex4 b.length :=
      if_neg (by omega)
    have eid : bslice (nodeBytes b ++ rest) 0 2 = b.id :=
      bslice_start (m := b.id) (r := lenFieldBytes b.length ++ (b.data ++ rest))
        (by simp [nodeBytes, List.append_assoc]) h2
    have e24 : bslice (nodeBytes b ++ rest) 2 4 = [48, 48] :=
      bslice_eq (p := b.id) (m := [48, 48]) (r := [48, 50] ++ (hex4 b.length ++ (b.data ++ rest)))
        (by simp [nodeBytes, hlf, List.append_assoc]) h2 (by simp)
    have e410 : bslice (nodeBytes b ++ rest) 4 10 = [48, 50] ++ hex4 b.length :=
      bslice_eq (p := b.id ++ [48, 48]) (m := [48, 50] ++ hex4 b.length)
        (r := b.data ++ rest)
        (by simp [nodeBytes, hlf, List.append_assoc]) (by simp [h2]) (by simp [hex4])
    have e10L : bslice (nodeBytes b ++ rest) 10 b.length = b.data :=
      bslice_eq (p := b.id ++ [48, 48, 48, 50] ++ hex4 b.length) (m := b.data) (r := rest)
        (by simp [nodeBytes, hlf, List.append_assoc]) (by simp [hex4, h2]) (by omega)
    have hn256 : ¬ (nodeBytes b ++ rest).length < 256 := by omega
    unfold parseOneOpt
    rw [if_neg hnlt4, eid, e24, e410]
    rw [if_pos hid, if_pos rfl, if_neg hn256,
      ext_len_from_str_hex4 (by omega) h65]
    dsimp only
    rw [if_neg hnL, e10L, if_pos h2, if_pos hascii, ← hcanon, if_neg (by omega)]

/-- Parsing the wire form of a valid nonempty chain followed by arbitrary
bytes, with the expected count equal to the chain length, recovers exactly
that chain. -/
theorem new_from_str_chainBytes : ∀ (l : List OptBlock), l ≠ [] →
    (∀ b ∈ l, NodeValid b) →
    ∀ rest, OptBlock.new_from_str (chainBytes l ++ rest) l.length = .ok l := by
  intro l
  induction l with
  | nil => intro h; simp at h
  | cons b t ih =>
    intro _ hv rest
    have hvb : NodeValid b := hv b (by simp)
    have hvt : ∀ x ∈ t, NodeValid x := fun x hx => hv x (by simp [hx])
    have hsplit : chainBytes (b :: t) ++ rest = nodeBytes b ++ (chainBytes t ++ rest) := by
      simp [chainBytes, List.append_assoc]
    cases t with
    | nil =>
      show OptBlock.new_from_str (chainBytes [b] ++ rest) 1 = .ok [b]
      unfold OptBlock.new_from_str
      rw [hsplit, parseOneOpt_nodeBytes hvb (chainBytes [] ++ rest)]
    | cons c u =>
      show OptBlock.new_from_str (chainBytes (b :: c :: u) ++ rest) (u.length + 1 + 1) = _
      rw [show u.length + 1 + 1 = u.length + 2 from rfl]
      unfold OptBlock.new_from_str
      rw [hsplit, parseOneOpt_nodeBytes hvb (chainBytes (c :: u) ++ rest)]
      dsimp only
      rw [List.drop_left' (nodeBytes_length hvb)]
      rw [show OptBlock.new_from_str (chainBytes (c :: u) ++ rest) (u.length + 1) =
        .ok (c :: u) from ih (by simp) hvt rest]

/-- Every allowed version id has one character. -/
theorem allowedVersionIds_length : ∀ x ∈ allowedVersionIds, x.length = 1 := by decide

/-- Every allowed key usage has two characters. -/
theorem allowedKeyUsages_length : ∀ x ∈ allowedKeyUsages, x.length = 2 := by decide

/-- Every allowed algorithm has one character. -/
theorem allowedAlgorithms_length : ∀ x ∈ allowedAlgorithms, x.length = 1 := by decide

/-- Every allowed mode of use has one character. -/
theorem allowedModesOfUse_length : ∀ x ∈ allowedModesOfUse, x.length = 1 := by decide

/-- Every allowed exportability has one character. -/
theorem allowedExportabilities_length : ∀ x ∈ allowedExportabilities, x.length = 1 := by decide

/-- The fixed header section of a valid header is 16 bytes. -/
theorem headerFixedBytes_length {h : KeyBlockHeader} (hv : HeaderValid h) :
    (headerFixedBytes h).length = 16 := by
  obtain ⟨h1, _, _, h4, h5, h6, h7, _, h9, h10, _, _, _⟩ := hv
  unfold headerFixedBytes
  simp [allowedVersionIds_length _ h1, allowedKeyUsages_length _ h4,
    allowedAlgorithms_length _ h5, allowedModesOfUse_length _ h6, h7,
    allowedExportabilities_length _ h9, h10, dec4, dec2]

/-- The wire form of a nonempty valid chain has at least 4 bytes. -/
theorem chainBytes_pos {l : List OptBlock} (hne : l ≠ []) (hv : ∀ b ∈ l, NodeValid b) :
    4 ≤ (chainBytes l).length := by
  cases l with
  | nil => simp at hne
  | cons b t =>
    have hvb : NodeValid b := hv b (by simp)
    have := nodeValid_four hvb
    have := nodeBytes_length hvb
    simp only [chainBytes, List.length_append]
    omega

/-- Export of a valid header succeeds and produces the fixed fields
followed by the chain wire form. -/
theorem export_str_headerValid {h : KeyBlockHeader} (hv : HeaderValid h) :
    h.export_str = .ok (headerFixedBytes h ++ chainBytes h.opt_blocks) := by
  obtain ⟨h1, h2, h3, h4, h5, h6, h7, h8, h9, h10, h11, h12, h13⟩ := hv
  have n1 : h.version_id ≠ [] := by
    have := allowedVersionIds_length _ h1
    intro he
    rw [he] at this
    simp at this
  have n2 : h.key_usage ≠ [] := by
    have := allowedKeyUsages_length _ h4
    intro he
    rw [he] at this
    simp at this
  have n3 : h.algorithm ≠ [] := by
    have := allowedAlgorithms_length _ h5
    intro he
    rw [he] at this
    simp at this
  have n4 : h.mode_of_use ≠ [] := by
    have := allowedModesOfUse_length _ h6
    intro he
    rw [he] at this
    simp at this
  have n5 : h.key_version_number ≠ [] := by
    intro he
    rw [he] at h7
    simp at h7
  have n6 : h.exportability ≠ [] := by
    have := allowedExportabilities_length _ h9
    intro he
    rw [he] at this
    simp at this
  unfold KeyBlockHeader.export_str
  rw [if_neg (by simp [n1, n2, n3, n4, n5, n6, h10]; omega)]
  rw [exportChain_chainBytes h13]

/-- Positions of the nine fixed header fields inside the encoded header,
for fields of the prescribed widths 1, 4, 2, 1, 1, 2, 1, 2, 2, followed by
an arbitrary tail. -/
theorem headerSlices (v d u a mo kv e n r t : List Nat)
    (hv : v.length = 1) (hd : d.length = 4) (hu : u.length = 2) (ha : a.length = 1)
    (hmo : mo.length = 1) (hkv : kv.length = 2) (he : e.length = 1) (hn : n.length = 2)
    (hr : r.length = 2) :
    bslice (v ++ (d ++ (u ++ (a ++ (mo ++ (kv ++ (e ++ (n ++ (r ++ t))))))))) 0 1 = v ∧
    bslice (v ++ (d ++ (u ++ (a ++ (mo ++ (kv ++ (e ++ (n ++ (r ++ t))))))))) 1 5 = d ∧
    bslice (v ++ (d ++ (u ++ (a ++ (mo ++ (kv ++ (e ++ (n ++ (r ++ t))))))))) 5 7 = u ∧
    bslice (v ++ (d ++ (u ++ (a ++ (mo ++ (kv ++ (e ++ (n ++ (r ++ t))))))))) 7 8 = a ∧
    bslice (v ++ (d ++ (u ++ (a ++ (mo ++ (kv ++ (e ++ (n ++ (r ++ t))))))))) 8 9 = mo ∧
    bslice (v ++ (d ++ (u ++ (a ++ (mo ++ (kv ++ (e ++ (n ++ (r ++ t))))))))) 9 11 = kv ∧
    bslice (v ++ (d ++ (u ++ (a ++ (mo ++ (kv ++ (e ++ (n ++ (r ++ t))))))))) 11 12 = e ∧
    bslice (v ++ (d ++ (u ++ (a ++ (mo ++ (kv ++ (e ++ (n ++ (r ++ t))))))))) 12 14 = n ∧
    bslice (v ++ (d ++ (u ++ (a ++ (mo ++ (kv ++ (e ++ (n ++ (r ++ t))))))))) 14 16 = r ∧
    List.drop 16 (v ++ (d ++ (u ++ (a ++ (mo ++ (kv ++ (e ++ (n ++ (r ++ t))))))))) = t := by
  obtain ⟨v0, rfl⟩ := list_len_one hv
  obtain ⟨d0, d1, d2, d3, rfl⟩ := list_len_four hd
  obtain ⟨u0, u1, rfl⟩ := list_len_two hu
  obtain ⟨a0, rfl⟩ := list_len_one ha
  obtain ⟨m0, rfl⟩ := list_len_one hmo
  obtain ⟨k0, k1, rfl⟩ := list_len_two hkv
  obtain ⟨e0, rfl⟩ := list_len_one he
  obtain ⟨n0, n1, rfl⟩ := list_len_two hn
  obtain ⟨r0, r1, rfl⟩ := list_len_two hr
  exact ⟨rfl, rfl, rfl, rfl, rfl, rfl, rfl, rfl, rfl, rfl⟩

/-- Parsing the export of a valid header, followed by arbitrary bytes,
recovers exactly that header: the fixed fields are re-validated and the
chain is re-parsed with the declared count. -/
theorem new_from_str_headerValid {h : KeyBlockHeader} (hv : HeaderValid h) (rest : List Nat) :
    KeyBlockHeader.new_from_str (headerFixedBytes h ++ (chainBytes h.opt_blocks ++ rest)) =
      .ok h := by
  obtain ⟨h1, h2, h3, h4, h5, h6, h7, h8, h9, h10, h11, h12, h13⟩ := hv
  have l1 := allowedVersionIds_length _ h1
  have l4 := allowedKeyUsages_length _ h4
  have l5 := allowedAlgorithms_length _ h5
  have l6 := allowedModesOfUse_length _ h6
  have l9 := allowedExportabilities_length _ h9
  have lr : h.reserved_field.length = 2 := by rw [h10]; rfl
  have hfl : (headerFixedBytes h).length = 16 :=
    headerFixedBytes_length ⟨h1, h2, h3, h4, h5, h6, h7, h8, h9, h10, h11, h12, h13⟩
  obtain ⟨e01, e15, e57, e78, e89, e911, e1112, e1214, e1416, edrop⟩ :=
    headerSlices h.version_id (dec4 h.kb_length) h.key_usage h.algorithm h.mode_of_use
      h.key_version_number h.exportability (dec2 h.num_opt_blocks) h.reserved_field
      (chainBytes h.opt_blocks ++ rest) l1 (by simp [dec4]) l4 l5 l6 h7 l9 (by simp [dec2]) lr
  have hsfull : headerFixedBytes h ++ (chainBytes h.opt_blocks ++ rest) =
      h.version_id ++ (dec4 h.kb_length ++ (h.key_usage ++ (h.algorithm ++ (h.mode_of_use ++
        (h.key_version_number ++ (h.exportability ++ (dec2 h.num_opt_blocks ++
          (h.reserved_field ++ (chainBytes h.opt_blocks ++ rest))))))))) := by
    simp [headerFixedBytes, List.append_assoc]
  rw [← hsfull] at e01 e15 e57 e78 e89 e911 e1112 e1214 e1416 edrop
  have slen : (headerFixedBytes h ++ (chainBytes h.opt_blocks ++ rest)).length =
      16 + ((chainBytes h.opt_blocks).length + rest.length) := by
    simp [hfl]
  have pd : parseUnsignedDec
      (bslice (headerFixedBytes h ++ (chainBytes h.opt_blocks ++ rest)) 1 5) 65535 =
      some h.kb_length := by
    rw [e15]
    exact parseUnsignedDec_dec4 _ h3
  have pn : parseUnsignedDec
      (bslice (headerFixedBytes h ++ (chainBytes h.opt_blocks ++ rest)) 12 14) 255 =
      some h.num_opt_blocks := by
    rw [e1214]
    exact parseUnsignedDec_dec2 _ h12
  have c20 : ¬ (h.num_opt_blocks > 0 ∧
      (headerFixedBytes h ++ (chainBytes h.opt_blocks ++ rest)).length < 20) := by
    rintro ⟨hpos, hlt⟩
    have hne : h.opt_blocks ≠ [] := by
      intro he
      rw [he] at h11
      simp at h11
      omega
    have := chainBytes_pos hne h13
    omega
  unfold KeyBlockHeader.new_from_str
  rw [if_neg (by omega), pd, pn]
  dsimp only
  rw [e01, e57, e78, e89, e911, e1112, e1416]
  rw [if_neg (not_not_intro h1), if_neg (by omega), if_neg (not_not_intro h4),
    if_neg (not_not_intro h5), if_neg (not_not_intro h6), if_neg (by simp [h7, h8]),
    if_neg (not_not_intro h9), if_neg (by omega), if_neg (by simp [h10]), if_neg c20]
  by_cases hnp : h.num_opt_blocks > 0
  · rw [if_pos hnp, edrop]
    have hne : h.opt_blocks ≠ [] := by
      intro he
      rw [he] at h11
      simp at h11
      omega
    rw [h11, new_from_str_chainBytes h.opt_blocks hne h13 rest]
    rw [← h11]
  · rw [if_neg hnp]
    have he : h.opt_blocks = [] := List.length_eq_zero.mp (by omega)
    rw [← he]

/-- Rounding up to a multiple of a positive block size never falls below
the value being rounded. -/
theorem ceil_mul_ge (x bl : Nat) (hbl : 0 < bl) (hx : 1 ≤ x) :
    x ≤ (x + (bl - 1)) / bl * bl := by
  have h1 : x + (bl - 1) = (x - 1) + bl := by omega
  rw [h1, Nat.add_div_right _ hbl]
  have h3 : x - 1 < ((x - 1) / bl + 1) * bl :=
    (Nat.div_lt_iff_lt_mul hbl).mp (Nat.lt_succ_self _)
  omega

/-- calculate_padding_length with a positive block size always succeeds,
with the padding given by the rounded-up total minus the raw section. -/
theorem calculate_padding_length_pos {klen m bl : Nat} (hbl : 0 < bl) :
    calculate_padding_length klen m bl =
      .ok ((2 + max klen m + (bl - 1)) / bl * bl - (2 + klen)) := by
  unfold calculate_padding_length
  rw [if_neg]
  have hge := ceil_mul_ge (2 + max klen m) bl hbl (by omega)
  have hmax : klen ≤ max klen m := Nat.le_max_left _ _
  omega

/-- calculate_padding_length with block size zero reports the underflow
error (the Rust code would divide by zero there). -/
theorem calculate_padding_length_zero (klen m : Nat) :
    calculate_padding_length klen m 0 = .error .payloadUnderflow := by
  unfold calculate_padding_length
  simp

/-- Successful payload construction: the 2-byte big-endian bit length (in
u16 arithmetic), the key, and the leading padding-length seed bytes. -/
theorem construct_payload_ok {key : List Nat} {m bl : Nat} {seed : List Nat} (hbl : 0 < bl)
    (hseed : (2 + max key.length m + (bl - 1)) / bl * bl - (2 + key.length) ≤ seed.length) :
    construct_payload key m bl seed =
      .ok ([8 * (key.length % 65536) % 65536 / 256, 8 * (key.length % 65536) % 65536 % 256] ++
        key ++
        List.take ((2 + max key.length m + (bl - 1)) / bl * bl - (2 + key.length)) seed) := by
  unfold construct_payload
  rw [calculate_padding_length_pos hbl]
  dsimp only
  rw [if_neg (by omega)]

/-- Every successfully constructed payload fills the rounded-up total
length exactly, hence is a multiple of the cipher block length. -/
theorem construct_payload_length {key : List Nat} {m bl : Nat} {seed p : List Nat}
    (hok : construct_payload key m bl seed = .ok p) :
    p.length = (2 + max key.length m + (bl - 1)) / bl * bl ∧ p.length % bl = 0 := by
  rcases Nat.eq_zero_or_pos bl with hbl | hbl
  · subst hbl
    unfold construct_payload at hok
    rw [calculate_padding_length_zero] at hok
    exact absurd hok (by simp)
  · unfold construct_payload at hok
    rw [calculate_padding_length_pos hbl] at hok
    dsimp only at hok
    by_cases hsl : seed.length <
        (2 + max key.length m + (bl - 1)) / bl * bl - (2 + key.length)
    · rw [if_pos hsl] at hok
      exact absurd hok (by simp)
    · rw [if_neg hsl] at hok
      have hp : p = [8 * (key.length % 65536) % 65536 / 256,
          8 * (key.length % 65536) % 65536 % 256] ++ key ++
          List.take ((2 + max key.length m + (bl - 1)) / bl * bl - (2 + key.length)) seed := by
        injection hok with hh
        exact hh.symm
      subst hp
      have hge := ceil_mul_ge (2 + max key.length m) bl hbl (by omega)
      have hmax : key.length ≤ max key.length m := Nat.le_max_left _ _
      constructor
      · simp [List.length_take]
        omega
      · have he : ([8 * (key.length % 65536) % 65536 / 256,
            8 * (key.length % 65536) % 65536 % 256] ++ key ++
            List.take ((2 + max key.length m + (bl - 1)) / bl * bl - (2 + key.length))
              seed).length = (2 + max key.length m + (bl - 1)) / bl * bl := by
          simp [List.length_take]
          omega
        rw [he]
        exact Nat.mul_mod_left _ _

/-- C5: derive_keys_version_d returns an error exactly when the KBPK
length is not 16, 24 or 32 bytes; when it succeeds (with CMAC returning
16-byte tags, as AES-CMAC does), both derived keys KBEK and KBAK have the
same byte length as the KBPK. -/
theorem c5_derive_keys (C : Cipher) (hC : ∀ d k, (C.cmac d k).length = 16)
    (kbpk : List Nat) :
    (derive_keys_version_d C kbpk = .error .invalidKbpkLength ↔
      ¬ (kbpk.length = 16 ∨ kbpk.length = 24 ∨ kbpk.length = 32)) ∧
    (∀ ek ak, derive_keys_version_d C kbpk = .ok (ek, ak) →
      ek.length = kbpk.length ∧ ak.length = kbpk.length) := by
  unfold derive_keys_version_d
  by_cases h16 : kbpk.length = 16
  · rw [if_pos h16]
    refine ⟨by simp [h16], ?_⟩
    intro ek ak hok
    simp only [Except.ok.injEq, Prod.mk.injEq] at hok
    obtain ⟨he, ha⟩ := hok
    rw [← he, ← ha, hC, hC, h16]
    exact ⟨rfl, rfl⟩
  · rw [if_neg h16]
    by_cases h24 : kbpk.length = 24
    · rw [if_pos h24]
      refine ⟨by simp [h24], ?_⟩
      intro ek ak hok
      simp only [Except.ok.injEq, Prod.mk.injEq] at hok
      obtain ⟨he, ha⟩ := hok
      rw [← he, ← ha, h24]
      constructor <;> simp [hC]
    · rw [if_neg h24]
      by_cases h32 : kbpk.length = 32
      · rw [if_pos h32]
        refine ⟨by simp [h32], ?_⟩
        intro ek ak hok
        simp only [Except.ok.injEq, Prod.mk.injEq] at hok
        obtain ⟨he, ha⟩ := hok
        rw [← he, ← ha, h32]
        constructor <;> simp [hC]
      · rw [if_neg h32]
        refine ⟨by simp [h16, h24, h32], ?_⟩
        intro ek ak hok
        exact absurd hok (by simp)

/-- C5 witness: the constant cipher satisfies the CMAC length hypothesis,
and a 23-byte KBPK is rejected. -/
theorem c5_derive_keys_witness :
    derive_keys_version_d idCipher (List.replicate 23 7) = .error .invalidKbpkLength :=
  ((c5_derive_keys idCipher (fun _ _ => rfl) (List.replicate 23 7)).1).mpr (by decide)

/-- C4 (amended): for keys whose bit length fits in 16 bits,
construct_payload errors when the seed is shorter than the padding length,
and a successful payload is exactly the 2-byte big-endian key bit length,
the key, and the first padding-length seed bytes, with total length the
rounded-up multiple of the cipher block length. -/
theorem c4_construct_payload (key : List Nat) (m bl : Nat) (seed : List Nat)
    (hk : 8 * key.length < 65536) :
    (seed.length < (2 + max key.length m + (bl - 1)) / bl * bl - (2 + key.length) →
      ∃ e, construct_payload key m bl seed = .error e) ∧
    (∀ p, construct_payload key m bl seed = .ok p →
      p = [8 * key.length / 256, 8 * key.length % 256] ++ key ++
          List.take ((2 + max key.length m + (bl - 1)) / bl * bl - (2 + key.length)) seed ∧
        p.length = (2 + max key.length m + (bl - 1)) / bl * bl) := by
  have hbits : 8 * (key.length % 65536) % 65536 = 8 * key.length := by omega
  rcases Nat.eq_zero_or_pos bl with hbl | hbl
  · subst hbl
    constructor
    · intro _
      refine ⟨.payloadUnderflow, ?_⟩
      unfold construct_payload
      rw [calculate_padding_length_zero]
    · intro p hok
      unfold construct_payload at hok
      rw [calculate_padding_length_zero] at hok
      exact absurd hok (by simp)
  · constructor
    · intro hsl
      refine ⟨.payloadSeedTooShort, ?_⟩
      unfold construct_payload
      rw [calculate_padding_length_pos hbl]
      dsimp only
      rw [if_pos hsl]
    · intro p hok
      obtain ⟨hlen, _⟩ := construct_payload_length hok
      by_cases hsl : seed.length <
          (2 + max key.length m + (bl - 1)) / bl * bl - (2 + key.length)
      · unfold construct_payload at hok
        rw [calculate_padding_length_pos hbl] at hok
        dsimp only at hok
        rw [if_pos hsl] at hok
        exact absurd hok (by simp)
      · rw [construct_payload_ok hbl (by omega)] at hok
        refine ⟨?_, hlen⟩
        injection hok with hh
        rw [← hh, hbits]

/-- C4 witness: a 16-byte key with no masking, block length 16 and a
14-byte seed; the theorem applies (bit length 128 fits u16) and pins the
exact payload. -/
theorem c4_construct_payload_witness :
    construct_payload (List.replicate 16 5) 0 16 (List.replicate 14 3) =
      .ok ([0, 128] ++ List.replicate 16 5 ++ List.replicate 14 3) := by
  have hok : construct_payload (List.replicate 16 5) 0 16 (List.replicate 14 3) =
      .ok ([0, 128] ++ List.replicate 16 5 ++ List.replicate 14 3) := by
    rw [construct_payload_ok (by norm_num)
      (by simp only [List.length_replicate]; norm_num)]
    simp only [List.length_replicate, Nat.max_zero, List.take_replicate]
    norm_num
  obtain ⟨hp, _⟩ :=
    (c4_construct_payload (List.replicate 16 5) 0 16 (List.replicate 14 3) (by decide)).2 _ hok
  exact hok

/-- C4 counterexample: for an 8192-byte key the bit length 65536 overflows
the u16 arithmetic of the source, so the payload begins with the bytes
0, 0, whose big-endian value 0 is not 8 times the key length: the output
does not start with a 2-byte big-endian encoding of the key bit length. -/
theorem c4_counterexample :
    construct_payload (List.replicate 8192 0) 0 16 (List.replicate 14 0) =
      .ok ([0, 0] ++ List.replicate 8192 0 ++ List.replicate 14 0) ∧
      256 * 0 + 0 ≠ 8 * (List.replicate 8192 (0 : Nat)).length := by
  constructor
  · rw [construct_payload_ok (by norm_num)
      (by simp only [List.length_replicate]; norm_num)]
    have hA : 8 * ((List.replicate 8192 (0 : Nat)).length % 65536) % 65536 = 0 := by
      simp only [List.length_replicate]
    have hP : (2 + max (List.replicate 8192 (0 : Nat)).length 0 + (16 - 1)) / 16 * 16 -
        (2 + (List.replicate 8192 (0 : Nat)).length) = 14 := by
      simp only [List.length_replicate]
      norm_num
    rw [hA, hP]
    norm_num
  · simp only [List.length_replicate]
    norm_num

/-- All-zero padding data is ASCII. -/
theorem allAscii_replicate_48 (n : Nat) : allAscii (List.replicate n 48) = true := by
  simp [allAscii, List.all_eq_true, List.mem_replicate]

/-- Construction of the PB padding block with small all-zero data. -/
theorem optBlock_new_pb {n : Nat} (h2 : 2 ≤ n) (hlt : n + 4 < 256) :
    OptBlock.new [80, 66] (List.replicate n 48) =
      .ok ⟨[80, 66], List.replicate n 48, n + 4⟩ := by
  unfold OptBlock.new
  rw [if_pos (by decide), if_pos (by decide), if_pos (allAscii_replicate_48 n)]
  have hc : canonLength [80, 66] (List.replicate n 48) = n + 4 := by
    unfold canonLength
    simp only [List.length_replicate, List.length_cons, List.length_nil]
    rw [if_pos (by omega)]
    omega
  dsimp only
  rw [hc, if_neg (by omega)]

/-- Chain total length distributes over append. -/
theorem chainTotalLength_append (l1 l2 : List OptBlock) :
    chainTotalLength (l1 ++ l2) = chainTotalLength l1 + chainTotalLength l2 := by
  simp [chainTotalLength]

/-- finalize is the identity on headers without optional blocks. -/
theorem finalize_nil {h : KeyBlockHeader} (hnil : h.opt_blocks = []) :
    h.finalize = .ok h := by
  unfold KeyBlockHeader.finalize
  rw [hnil]

/-- finalize is the identity on block-aligned headers. -/
theorem finalize_of_aligned {h : KeyBlockHeader}
    (ha : h.len % (if h.version_id = [68] then 16 else 8) = 0) : h.finalize = .ok h := by
  unfold KeyBlockHeader.finalize
  dsimp only
  cases hob : h.opt_blocks with
  | nil => rfl
  | cons b t => rw [if_neg (not_not_intro ha)]

/-- Chain total length of a singleton chain. -/
theorem chainTotalLength_singleton (b : OptBlock) : chainTotalLength [b] = b.length := by
  simp [chainTotalLength]

/-- C9: finalize on an already block-aligned header is the identity, and a
second finalize directly after a successful one is always the identity. -/
theorem c9_finalize (h : KeyBlockHeader) :
    (h.len % (if h.version_id = [68] then 16 else 8) = 0 → h.finalize = .ok h) ∧
    (∀ h2, h.finalize = .ok h2 → h2.finalize = .ok h2) := by
  refine ⟨finalize_of_aligned, ?_⟩
  intro h2 hfin
  unfold KeyBlockHeader.finalize at hfin
  dsimp only at hfin
  rcases hob : h.opt_blocks with _ | ⟨b, t⟩
  · rw [hob] at hfin
    dsimp only at hfin
    injection hfin with hh
    rw [← hh]
    exact finalize_nil hob
  · rw [hob] at hfin
    dsimp only at hfin
    by_cases halign : h.len % (if h.version_id = [68] then 16 else 8) ≠ 0
    · rw [if_pos halign] at hfin
      have hLrw : h.len = 16 + chainTotalLength (b :: t) := by
        unfold KeyBlockHeader.len
        rw [hob]
      by_cases hv : h.version_id = [68]
      · rw [if_pos hv] at hfin halign
        have hm : h.len % 16 ≠ 0 := halign
        by_cases h6 : 16 - h.len % 16 < 6
        · rw [if_pos h6] at hfin
          rw [optBlock_new_pb (by omega) (by omega)] at hfin
          dsimp only at hfin
          injection hfin with hh
          rw [← hh]
          apply finalize_of_aligned
          unfold KeyBlockHeader.len
          dsimp only
          rw [if_pos hv, chainTotalLength_append, chainTotalLength_singleton]
          dsimp only
          have hco : chainTotalLength h.opt_blocks = chainTotalLength (b :: t) := by rw [hob]
          omega
        · rw [if_neg h6] at hfin
          rw [optBlock_new_pb (by omega) (by omega)] at hfin
          dsimp only at hfin
          injection hfin with hh
          rw [← hh]
          apply finalize_of_aligned
          unfold KeyBlockHeader.len
          dsimp only
          rw [if_pos hv, chainTotalLength_append, chainTotalLength_singleton]
          dsimp only
          have hco : chainTotalLength h.opt_blocks = chainTotalLength (b :: t) := by rw [hob]
          omega
      · rw [if_neg hv] at hfin halign
        have hm : h.len % 8 ≠ 0 := halign
        by_cases h6 : 8 - h.len % 8 < 6
        · rw [if_pos h6] at hfin
          rw [optBlock_new_pb (by omega) (by omega)] at hfin
          dsimp only at hfin
          injection hfin with hh
          rw [← hh]
          apply finalize_of_aligned
          unfold KeyBlockHeader.len
          dsimp only
          rw [if_neg hv, chainTotalLength_append, chainTotalLength_singleton]
          dsimp only
          have hco : chainTotalLength h.opt_blocks = chainTotalLength (b :: t) := by rw [hob]
          omega
        · rw [if_neg h6] at hfin
          rw [optBlock_new_pb (by omega) (by omega)] at hfin
          dsimp only at hfin
          injection hfin with hh
          rw [← hh]
          apply finalize_of_aligned
          unfold KeyBlockHeader.len
          dsimp only
          rw [if_neg hv, chainTotalLength_append, chainTotalLength_singleton]
          dsimp only
          have hco : chainTotalLength h.opt_blocks = chainTotalLength (b :: t) := by rw [hob]
          omega
    · rw [if_neg halign] at hfin
      injection hfin with hh
      rw [← hh]
      exact finalize_of_aligned (by omega)

/-- The only key derivation error is the invalid KBPK length. -/
theorem derive_error_eq {C : Cipher} {kbpk : List Nat} {e : Err}
    (h : derive_keys_version_d C kbpk = .error e) : e = .invalidKbpkLength := by
  unfold derive_keys_version_d at h
  split at h
  · exact absurd h (by simp)
  · split at h
    · exact absurd h (by simp)
    · split at h
      · exact absurd h (by simp)
      · injection h with hh
        exact hh.symm

/-- The only payload construction errors are the underflow and the short
seed. -/
theorem construct_payload_error_cases {key : List Nat} {m bl : Nat} {seed : List Nat} {e : Err}
    (h : construct_payload key m bl seed = .error e) :
    e = .payloadUnderflow ∨ e = .payloadSeedTooShort := by
  unfold construct_payload at h
  split at h
  · next ec heq =>
    injection h with hh
    subst hh
    unfold calculate_padding_length at heq
    dsimp only at heq
    split at heq
    · injection heq with h2
      exact .inl h2.symm
    · exact absurd heq (by simp)
  · dsimp only at h
    split at h
    · injection h with hh
      exact .inr hh.symm
    · exact absurd h (by simp)

/-- The only set_kb_length error is the invalid key block length. -/
theorem set_kb_length_error_eq {h : KeyBlockHeader} {v : Nat} {e : Err}
    (he : h.set_kb_length v = .error e) : e = .hdrInvalidKbLength := by
  unfold KeyBlockHeader.set_kb_length at he
  split at he
  · injection he with hh
    exact hh.symm
  · exact absurd he (by simp)

/-- The only single-node export error is the uninitialized node. -/
theorem export_str_error_eq {b : OptBlock} {e : Err}
    (he : b.export_str = .error e) : e = .optUninitialized := by
  unfold OptBlock.export_str at he
  split at he
  · injection he with hh
    exact hh.symm
  · exact absurd he (by simp)

/-- The only chain export error is the uninitialized node. -/
theorem exportChain_error_eq {l : List OptBlock} {e : Err}
    (he : exportChain l = .error e) : e = .optUninitialized := by
  induction l with
  | nil => exact absurd he (by simp [exportChain])
  | cons b t ih =>
    unfold exportChain at he
    cases hb : b.export_str with
    | error eb =>
      rw [hb] at he
      have he2 : (Except.error eb : Except Err (List Nat)) = .error e := he
      injection he2 with hh
      subst hh
      exact export_str_error_eq hb
    | ok xb =>
      rw [hb] at he
      cases ht : exportChain t with
      | error et =>
        rw [ht] at he
        have he2 : (Except.error et : Except Err (List Nat)) = .error e := he
        injection he2 with hh
        subst hh
        exact ih ht
      | ok yt =>
        rw [ht] at he
        exact absurd he (by simp)

/-- The only header export errors are the empty-field error and the
uninitialized optional block. -/
theorem header_export_error_cases {h : KeyBlockHeader} {e : Err}
    (he : h.export_str = .error e) : e = .hdrExportEmptyField ∨ e = .optUninitialized := by
  unfold KeyBlockHeader.export_str at he
  split at he
  · injection he with hh
    exact .inl hh.symm
  · cases hc : exportChain h.opt_blocks with
    | error ec =>
      rw [hc] at he
      have he2 : (Except.error ec : Except Err (List Nat)) = .error e := he
      injection he2 with hh
      subst hh
      exact .inr (exportChain_error_eq hc)
    | ok oc =>
      rw [hc] at he
      exact absurd he (by simp)

/-- C10: every successful payload is block aligned, so the block-length
alignment error of tr31_wrap is unreachable whenever the header length is
a multiple of 16, in particular for headers without optional blocks. -/
theorem c10_alignment (C : Cipher) (kbpk : List Nat) (h : KeyBlockHeader)
    (key : List Nat) (m : Nat) (seed : List Nat) :
    (∀ bl p, construct_payload key m bl seed = .ok p → p.length % bl = 0) ∧
    (h.len % 16 = 0 → tr31_wrap C kbpk h key m seed ≠ .error .blockLengthNotAligned) ∧
    (h.opt_blocks = [] → tr31_wrap C kbpk h key m seed ≠ .error .blockLengthNotAligned) := by
  have hpart2 : h.len % 16 = 0 →
      tr31_wrap C kbpk h key m seed ≠ .error .blockLengthNotAligned := by
    intro halign hcontr
    unfold tr31_wrap at hcontr
    split at hcontr
    · simp at hcontr
    · split at hcontr
      · rename_i e heq
        have he := derive_error_eq heq
        subst he
        simp at hcontr
      · split at hcontr
        · rename_i e heq2
          rcases construct_payload_error_cases heq2 with hx | hx <;> subst hx <;>
            simp at hcontr
        · rename_i payload heq2
          dsimp only at hcontr
          split at hcontr
          · rename_i hcond
            have hp := (construct_payload_length heq2).2
            exact hcond (by omega)
          · split at hcontr
            · rename_i e heq3
              have := set_kb_length_error_eq heq3
              subst this
              simp at hcontr
            · split at hcontr
              · rename_i e heq4
                rcases header_export_error_cases heq4 with hx | hx <;> subst hx <;>
                  simp at hcontr
              · simp at hcontr
  have hnil_align : h.opt_blocks = [] → h.len % 16 = 0 := by
    intro hn
    unfold KeyBlockHeader.len
    rw [hn]
    rfl
  exact ⟨fun bl p hok => (construct_payload_length hok).2, hpart2,
    fun hn => hpart2 (hnil_align hn)⟩

/-- C9 witness: finalize of the aligned 32-byte header is the identity. -/
theorem c9_finalize_witness : hdrKS.finalize = .ok hdrKS :=
  (c9_finalize hdrKS).1 (by decide)

/-- C10 witness: wrapping under a header without optional blocks never
reports the block alignment error. -/
theorem c10_alignment_witness :
    tr31_wrap idCipher (List.replicate 16 0) hdrD (List.replicate 16 2) 0
      (List.replicate 14 3) ≠ .error .blockLengthNotAligned :=
  (c10_alignment idCipher (List.replicate 16 0) hdrD (List.replicate 16 2) 0
    (List.replicate 14 3)).2.2 rfl

/-- C6 counterexample: the 16-character header D9999P0AE00E0000 declares a
key block length of 9999 while its total encoded length (fixed header plus
optional blocks) is 16, and it still parses successfully. -/
theorem c6_counterexample :
    KeyBlockHeader.new_from_str [68, 57, 57, 57, 57, 80, 48, 65, 69, 48, 48, 69, 48, 48, 48, 48] =
      .ok ⟨[68], 9999, [80, 48], [65], [69], [48, 48], [69], 0, [48, 48], []⟩ ∧
    (9999 : Nat) ≠
      ([68, 57, 57, 57, 57, 80, 48, 65, 69, 48, 48, 69, 48, 48, 48, 48] : List Nat).length ∧
    (⟨[68], 9999, [80, 48], [65], [69], [48, 48], [69], 0, [48, 48], []⟩ :
      KeyBlockHeader).len = 16 := by
  refine ⟨by decide, by decide, by decide⟩

/-- C6 (amended): KeyBlockHeader::new_from_str validates the kb_length
field only as a numeric value of at most 9999 and performs no comparison
with the actual encoded length: a 16-byte header declaring any length n
parses successfully with kb_length n.  The declared-versus-actual check is
performed later by tr31_unwrap. -/
theorem c6_amended (n : Nat) (h0 : 0 < n) (h9 : n ≤ 9999) :
    KeyBlockHeader.new_from_str
        ([68] ++ dec4 n ++ [80, 48, 65, 69, 48, 48, 69, 48, 48, 48, 48]) =
      .ok ⟨[68], n, [80, 48], [65], [69], [48, 48], [69], 0, [48, 48], []⟩ := by
  have hv : HeaderValid ⟨[68], n, [80, 48], [65], [69], [48, 48], [69], 0, [48, 48], []⟩ := by
    unfold HeaderValid
    dsimp only
    refine ⟨by decide, h0, h9, by decide, by decide, by decide, by decide, by decide,
      by decide, rfl, rfl, by decide, by simp⟩
  have hp := new_from_str_headerValid hv []
  rw [show headerFixedBytes
        ⟨[68], n, [80, 48], [65], [69], [48, 48], [69], 0, [48, 48], []⟩ ++
        (chainBytes [] ++ []) =
      [68] ++ dec4 n ++ [80, 48, 65, 69, 48, 48, 69, 48, 48, 48, 48] from by
    simp [headerFixedBytes, chainBytes, dec2]] at hp
  exact hp

/-- C6 amended witness: a declared length of 9999 on a 16-byte header. -/
theorem c6_amended_witness :
    KeyBlockHeader.new_from_str
        ([68] ++ dec4 9999 ++ [80, 48, 65, 69, 48, 48, 69, 48, 48, 48, 48]) =
      .ok ⟨[68], 9999, [80, 48], [65], [69], [48, 48], [69], 0, [48, 48], []⟩ :=
  c6_amended 9999 (by decide) (by decide)

/-- C8: the 256-character optional block CT 00 020100 followed by 246
ASCII data characters parses (with expected count 1) to a block with id CT
and exactly that data; the extended length path demands the
length-of-length prefix 02 and a value strictly above 255, erring
otherwise. -/
theorem c8_ext_length (d : List Nat) (hd : d.length = 246) (ha : allAscii d = true) :
    (OptBlock.new_from_str ([67, 84, 48, 48, 48, 50, 48, 49, 48, 48] ++ d) 1 =
      .ok [⟨[67, 84], d, 250⟩]) ∧
    (∀ l : List Nat, l.length = 6 → bslice l 0 2 ≠ [48, 50] →
      ext_len_from_str l = .error .optInvalidLenOfLen) ∧
    (∀ l : List Nat, ∀ v : Nat, l.length = 6 → bslice l 0 2 = [48, 50] →
      parseUnsignedHex (bslice l 2 6) = some v → v ≤ 255 →
      ext_len_from_str l = .error .optExtLenNotGreater255) := by
  refine ⟨?_, ?_, ?_⟩
  · have hsl : ([67, 84, 48, 48, 48, 50, 48, 49, 48, 48] ++ d).length = 256 := by
      simp [hd]
    have edata : bslice ([67, 84, 48, 48, 48, 50, 48, 49, 48, 48] ++ d) 10 256 = d := by
      show List.take 246 d = d
      rw [← hd]
      exact List.take_length d
    have hcan : canonLength [67, 84] d = 250 := by
      unfold canonLength
      rw [hd]
      decide
    unfold OptBlock.new_from_str
    unfold parseOneOpt
    rw [if_neg (by omega)]
    rw [show bslice ([67, 84, 48, 48, 48, 50, 48, 49, 48, 48] ++ d) 0 2 = [67, 84] from rfl]
    rw [show bslice ([67, 84, 48, 48, 48, 50, 48, 49, 48, 48] ++ d) 2 4 = [48, 48] from rfl]
    rw [show bslice ([67, 84, 48, 48, 48, 50, 48, 49, 48, 48] ++ d) 4 10 =
      [48, 50, 48, 49, 48, 48] from rfl]
    rw [if_pos (by decide), if_pos rfl, if_neg (by omega)]
    rw [show ext_len_from_str [48, 50, 48, 49, 48, 48] = .ok 256 from by decide]
    dsimp only
    rw [if_neg (by omega), edata, if_pos (by decide), if_pos ha, hcan, if_neg (by omega)]
  · intro l hl hpre
    unfold ext_len_from_str
    rw [if_neg (by omega), if_pos hpre]
  · intro l v hl hpre hparse hv
    unfold ext_len_from_str
    rw [if_neg (by omega), if_neg (not_not_intro hpre), hparse]
    dsimp only
    rw [if_pos hv]

/-- C8 witness: 246 capital letters as data. -/
theorem c8_ext_length_witness :
    OptBlock.new_from_str ([67, 84, 48, 48, 48, 50, 48, 49, 48, 48] ++
        List.replicate 246 65) 1 =
      .ok [⟨[67, 84], List.replicate 246 65, 250⟩] :=
  (c8_ext_length (List.replicate 246 65) (by simp only [List.length_replicate])
    (by
      simp only [allAscii, List.all_eq_true, List.mem_replicate]
      intro x hx
      obtain ⟨-, hx2⟩ := hx
      subst hx2
      decide)).1

/-- C2 (amended): for every header whose fields are valid and mutually
consistent, export succeeds and parsing the exported string returns the
identical header; consequently export-parse-export is the identity on
canonically exported strings.  (The second half of the original claim
fails for well-formed strings with non-canonical field encodings.) -/
theorem c2_header_roundtrip (h : KeyBlockHeader) (hv : HeaderValid h) :
    ∃ es, h.export_str = .ok es ∧ KeyBlockHeader.new_from_str es = .ok h := by
  refine ⟨headerFixedBytes h ++ chainBytes h.opt_blocks, export_str_headerValid hv, ?_⟩
  have hp := new_from_str_headerValid hv []
  rw [List.append_nil] at hp
  exact hp

/-- C2 witness: the 32-byte header with one KS block round-trips through
its canonical export. -/
theorem c2_header_roundtrip_witness :
    HeaderValid hdrKS ∧
      KeyBlockHeader.new_from_str
        ([68, 48, 48, 52, 56, 80, 48, 65, 69, 48, 48, 69, 48, 49, 48, 48, 75, 83, 49, 48] ++
          List.replicate 12 48) = .ok hdrKS := by
  refine ⟨by decide, ?_⟩
  obtain ⟨es, he, hp⟩ := c2_header_roundtrip hdrKS (by decide)
  have hc : hdrKS.export_str =
      .ok ([68, 48, 48, 52, 56, 80, 48, 65, 69, 48, 48, 69, 48, 49, 48, 48, 75, 83, 49, 48] ++
        List.replicate 12 48) := by decide
  rw [hc] at he
  injection he with hh
  rw [← hh] at hp
  exact hp

/-- C2 counterexample: the well-formed header string with lower-case hex
length field 0a parses successfully, but re-export emits the canonical
upper-case 0A, so export of parse differs from the original string. -/
theorem c2_counterexample :
    KeyBlockHeader.new_from_str
        [68, 48, 48, 50, 48, 80, 48, 65, 69, 48, 48, 69, 48, 49, 48, 48,
         75, 83, 48, 97, 49, 50, 51, 52, 53, 54] =
      .ok ⟨[68], 20, [80, 48], [65], [69], [48, 48], [69], 1, [48, 48],
        [⟨[75, 83], [49, 50, 51, 52, 53, 54], 10⟩]⟩ ∧
    KeyBlockHeader.export_str
        ⟨[68], 20, [80, 48], [65], [69], [48, 48], [69], 1, [48, 48],
          [⟨[75, 83], [49, 50, 51, 52, 53, 54], 10⟩]⟩ =
      .ok [68, 48, 48, 50, 48, 80, 48, 65, 69, 48, 48, 69, 48, 49, 48, 48,
        75, 83, 48, 65, 49, 50, 51, 52, 53, 54] ∧
    ([68, 48, 48, 50, 48, 80, 48, 65, 69, 48, 48, 69, 48, 49, 48, 48,
      75, 83, 48, 65, 49, 50, 51, 52, 53, 54] : List Nat) ≠
      [68, 48, 48, 50, 48, 80, 48, 65, 69, 48, 48, 69, 48, 49, 48, 48,
       75, 83, 48, 97, 49, 50, 51, 52, 53, 54] :=
  ⟨by decide, by decide, by decide⟩

/-- C7: when the parsed header's declared kb_length differs from the
actual key block length, tr31_unwrap fails with the length mismatch error
and yields no key; and every key block shorter than 16 + 2*16 + 2*16
characters is rejected with some error. -/
theorem c7_unwrap_length (C : Cipher) (kbpk kb : List Nat) :
    (∀ h, KeyBlockHeader.new_from_str kb = .ok h → kb.length ≠ h.kb_length →
      tr31_unwrap C kbpk kb = .error .kbLengthMismatch) ∧
    (kb.length < 16 + 2 * 16 + 2 * 16 → ∃ e, tr31_unwrap C kbpk kb = .error e) := by
  constructor
  · intro h hok hne
    unfold tr31_unwrap
    rw [hok]
    dsimp only
    rw [if_pos hne]
  · intro hlt
    cases hp : KeyBlockHeader.new_from_str kb with
    | error e =>
      refine ⟨e, ?_⟩
      unfold tr31_unwrap
      rw [hp]
    | ok h =>
      by_cases hmm : kb.length ≠ h.kb_length
      · refine ⟨.kbLengthMismatch, ?_⟩
        unfold tr31_unwrap
        rw [hp]
        dsimp only
        rw [if_pos hmm]
      · refine ⟨.kbTooShort, ?_⟩
        unfold tr31_unwrap
        rw [hp]
        dsimp only
        rw [if_neg hmm, if_pos hlt]

/-- C7 witness: the mismatch branch on a header declaring 9999 for a
16-character block. -/
theorem c7_unwrap_length_witness :
    tr31_unwrap idCipher (List.replicate 16 0)
        [68, 57, 57, 57, 57, 80, 48, 65, 69, 48, 48, 69, 48, 48, 48, 48] =
      .error .kbLengthMismatch :=
  (c7_unwrap_length idCipher (List.replicate 16 0)
      [68, 57, 57, 57, 57, 80, 48, 65, 69, 48, 48, 69, 48, 48, 48, 48]).1
    ⟨[68], 9999, [80, 48], [65], [69], [48, 48], [69], 0, [48, 48], []⟩
    (by decide) (by decide)

/-- C3: tr31_unwrap returns a header and key only when the transmitted MAC
equals the MAC recomputed over the header bytes and the decrypted payload;
whenever the two differ (all earlier stages having succeeded) it returns
the MAC check error; and an error result excludes any ok result, so no
extracted key or plaintext is returned to the caller on error. -/
theorem c3_mac_gate (C : Cipher) (kbpk kb : List Nat) :
    (∀ h k, tr31_unwrap C kbpk kb = .ok (h, k) →
      ∃ t, unwrapMacs C kbpk kb = some (t, t)) ∧
    (∀ t c, unwrapMacs C kbpk kb = some (t, c) → t ≠ c →
      tr31_unwrap C kbpk kb = .error .macCheckFailed) ∧
    (∀ e, tr31_unwrap C kbpk kb = .error e → ∀ p, tr31_unwrap C kbpk kb ≠ .ok p) := by
  refine ⟨?_, ?_, ?_⟩
  · intro h k hok
    unfold tr31_unwrap at hok
    unfold unwrapMacs
    cases hp : KeyBlockHeader.new_from_str kb with
    | error e =>
      rw [hp] at hok
      exact absurd hok (by simp)
    | ok hd =>
      rw [hp] at hok
      dsimp only at hok ⊢
      by_cases h1 : kb.length ≠ hd.kb_length
      · rw [if_pos h1] at hok
        exact absurd hok (by simp)
      · rw [if_neg h1] at hok ⊢
        by_cases h2 : kb.length < 16 + 2 * 16 + 2 * 16
        · rw [if_pos h2] at hok
          exact absurd hok (by simp)
        · rw [if_neg h2] at hok ⊢
          by_cases h3 : hd.version_id ≠ [68]
          · rw [if_pos h3] at hok
            exact absurd hok (by simp)
          · rw [if_neg h3] at hok ⊢
            cases hder : derive_keys_version_d C kbpk with
            | error e =>
              rw [hder] at hok
              exact absurd hok (by simp)
            | ok kk =>
              obtain ⟨kbek, kbak⟩ := kk
              rw [hder] at hok
              dsimp only at hok ⊢
              cases hct : hexDecode (bslice kb hd.len (kb.length - 16 * 2)) with
              | none =>
                rw [hct] at hok
                exact absurd hok (by simp)
              | some ct =>
                rw [hct] at hok
                cases hmac : hexDecode (List.drop (kb.length - 16 * 2) kb) with
                | none =>
                  rw [hmac] at hok
                  exact absurd hok (by simp)
                | some mac =>
                  rw [hmac] at hok
                  dsimp only at hok ⊢
                  by_cases h4 : mac ≠
                      C.cmac (List.take hd.len kb ++
                        C.dec ct kbek (List.take 16 mac)) kbak
                  · rw [if_pos h4] at hok
                    exact absurd hok (by simp)
                  · refine ⟨mac, ?_⟩
                    rw [not_not] at h4
                    rw [← h4]
  · intro t c hm hne
    unfold unwrapMacs at hm
    unfold tr31_unwrap
    cases hp : KeyBlockHeader.new_from_str kb with
    | error e =>
      rw [hp] at hm
      exact absurd hm (by simp)
    | ok hd =>
      rw [hp] at hm
      dsimp only at hm ⊢
      by_cases h1 : kb.length ≠ hd.kb_length
      · rw [if_pos h1] at hm
        exact absurd hm (by simp)
      · rw [if_neg h1] at hm ⊢
        by_cases h2 : kb.length < 16 + 2 * 16 + 2 * 16
        · rw [if_pos h2] at hm
          exact absurd hm (by simp)
        · rw [if_neg h2] at hm ⊢
          by_cases h3 : hd.version_id ≠ [68]
          · rw [if_pos h3] at hm
            exact absurd hm (by simp)
          · rw [if_neg h3] at hm ⊢
            cases hder : derive_keys_version_d C kbpk with
            | error e =>
              rw [hder] at hm
              exact absurd hm (by simp)
            | ok kk =>
              obtain ⟨kbek, kbak⟩ := kk
              rw [hder] at hm
              dsimp only at hm ⊢
              cases hct : hexDecode (bslice kb hd.len (kb.length - 16 * 2)) with
              | none =>
                rw [hct] at hm
                exact absurd hm (by simp)
              | some ct =>
                rw [hct] at hm
                cases hmac : hexDecode (List.drop (kb.length - 16 * 2) kb) with
                | none =>
                  rw [hmac] at hm
                  exact absurd hm (by simp)
                | some mac =>
                  rw [hmac] at hm
                  dsimp only at hm ⊢
                  simp only [Option.some.injEq, Prod.mk.injEq] at hm
                  obtain ⟨hmt, hmc⟩ := hm
                  subst hmt
                  subst hmc
                  rw [if_pos hne]
  · intro e he p hp
    rw [he] at hp
    exact absurd hp (by simp)

/-- C3 witness: an 80-character key block whose transmitted MAC 01..00
differs from the recomputed constant-cipher MAC 00..00 is rejected with
the MAC check error. -/
theorem c3_mac_gate_witness :
    tr31_unwrap idCipher (List.replicate 16 0)
        ([68, 48, 48, 56, 48, 80, 48, 65, 69, 48, 48, 69, 48, 48, 48, 48] ++
          List.replicate 32 48 ++ ([48, 49] ++ List.replicate 30 48)) =
      .error .macCheckFailed :=
  (c3_mac_gate idCipher (List.replicate 16 0)
      ([68, 48, 48, 56, 48, 80, 48, 65, 69, 48, 48, 69, 48, 48, 48, 48] ++
        List.replicate 32 48 ++ ([48, 49] ++ List.replicate 30 48))).2.1
    (1 :: List.replicate 15 0) (List.replicate 16 0) (by decide) (by decide)


/-- Evaluation of tr31_wrap on any inputs whose stages all succeed: the
result is the exported header followed by the hex of the encrypted payload
and the hex of the MAC. -/
theorem tr31_wrap_eval {C : Cipher} {kbpk : List Nat} {h : KeyBlockHeader}
    {key : List Nat} {m : Nat} {seed : List Nat} {kbek kbak payload : List Nat}
    {h2 : KeyBlockHeader} {hs : List Nat} {T : Nat}
    (hv : h.version_id = [68])
    (hder : derive_keys_version_d C kbpk = .ok (kbek, kbak))
    (hpay : construct_payload key m 16 seed = .ok payload)
    (htot : h.len + payload.length * 2 + 16 * 2 = T)
    (halign : T % 16 = 0)
    (hset : h.set_kb_length (T % 65536) = .ok h2)
    (hexp : h2.export_str = .ok hs) :
    tr31_wrap C kbpk h key m seed =
      .ok (hs ++ hexEncode (C.enc payload kbek (List.take 16 (C.cmac (hs ++ payload) kbak))) ++
        hexEncode (C.cmac (hs ++ payload) kbak)) := by
  unfold tr31_wrap
  rw [if_neg (not_not_intro hv), hder]
  dsimp only
  rw [hpay]
  dsimp only
  rw [htot]
  rw [if_neg (by omega), hset]
  dsimp only
  rw [hexp]

/-- A parsed header whose declared length disagrees with the actual key
block length makes tr31_unwrap fail with the mismatch error. -/
theorem tr31_unwrap_mismatch {C : Cipher} {kbpk kb : List Nat} {h : KeyBlockHeader}
    (hp : KeyBlockHeader.new_from_str kb = .ok h)
    (hne : kb.length ≠ h.kb_length) :
    tr31_unwrap C kbpk kb = .error .kbLengthMismatch := by
  unfold tr31_unwrap
  rw [hp]
  dsimp only
  rw [if_pos hne]


/-- C1 failing input: with a 32-byte KBPK, a version D header accepted by
wrap, a 16-byte key, masked key length 32750 and a sufficiently long seed,
tr31_wrap succeeds and produces a 65552-character key block whose header
length field holds 65552 mod 2^16 = 16 after the truncating u16 cast, so
tr31_unwrap rejects the very block tr31_wrap produced and the wrap-unwrap
round trip fails. -/
theorem c1_wrap_unwrap_bug :
    tr31_wrap idCipher (List.replicate 32 1) hdrD (List.replicate 16 2) 32750
        (List.replicate 32734 3) = .ok c1KeyBlob ∧
    c1KeyBlob.length = 65552 ∧
    tr31_unwrap idCipher (List.replicate 32 1) c1KeyBlob = .error .kbLengthMismatch := by
  have hpay : construct_payload (List.replicate 16 2) 32750 16 (List.replicate 32734 3) =
      .ok ([0, 128] ++ List.replicate 16 2 ++ List.replicate 32734 3) := by
    rw [construct_payload_ok (by norm_num) (by simp only [List.length_replicate]; norm_num)]
    simp only [List.length_replicate, List.take_replicate]
    rw [show (8 * (16 % 65536) % 65536 : Nat) / 256 = 0 from by norm_num]
    rw [show (8 * (16 % 65536) % 65536 : Nat) % 256 = 128 from by norm_num]
    rw [show min ((2 + max (16:Nat) 32750 + (16 - 1)) / 16 * 16 - (2 + 16)) 32734 = 32734 from by
      norm_num]
  have hplen : ([0, 128] ++ List.replicate 16 2 ++ List.replicate 32734 3).length = 32752 := by
    simp only [List.length_append, List.length_replicate, List.length_cons, List.length_nil]
  have hclen : c1KeyBlob.length = 65552 := by
    show ([68, 48, 48, 49, 54, 80, 48, 65, 69, 48, 48, 69, 48, 48, 48, 48] ++
      hexEncode ([0, 128] ++ List.replicate 16 2 ++ List.replicate 32734 3) ++
      hexEncode (List.replicate 16 0)).length = 65552
    rw [List.length_append, List.length_append, hexEncode_length, hexEncode_length,
      List.length_append, List.length_append, List.length_replicate, List.length_replicate,
      List.length_replicate]
    rfl
  have hv16 : HeaderValid
      ⟨[68], 16, [80, 48], [65], [69], [48, 48], [69], 0, [48, 48], []⟩ := by decide
  have hwrap : tr31_wrap idCipher (List.replicate 32 1) hdrD (List.replicate 16 2) 32750
      (List.replicate 32734 3) = .ok c1KeyBlob := by
    have hev := tr31_wrap_eval (T := 65552) (by decide)
      (show derive_keys_version_d idCipher (List.replicate 32 1) =
        .ok (List.replicate 16 0 ++ List.replicate 16 0,
          List.replicate 16 0 ++ List.replicate 16 0) from by decide)
      hpay
      (by rw [hplen, show hdrD.len = 16 from by decide])
      (by norm_num)
      (show hdrD.set_kb_length (65552 % 65536) =
        .ok ⟨[68], 16, [80, 48], [65], [69], [48, 48], [69], 0, [48, 48], []⟩ from by decide)
      (show KeyBlockHeader.export_str
          ⟨[68], 16, [80, 48], [65], [69], [48, 48], [69], 0, [48, 48], []⟩ =
        .ok [68, 48, 48, 49, 54, 80, 48, 65, 69, 48, 48, 69, 48, 48, 48, 48] from by decide)
    rw [show idCipher.cmac ([68, 48, 48, 49, 54, 80, 48, 65, 69, 48, 48, 69, 48, 48, 48, 48] ++
        ([0, 128] ++ List.replicate 16 2 ++ List.replicate 32734 3))
        (List.replicate 16 0 ++ List.replicate 16 0) = List.replicate 16 0 from rfl] at hev
    rw [show idCipher.enc ([0, 128] ++ List.replicate 16 2 ++ List.replicate 32734 3)
        (List.replicate 16 0 ++ List.replicate 16 0) (List.take 16 (List.replicate 16 0)) =
        [0, 128] ++ List.replicate 16 2 ++ List.replicate 32734 3 from rfl] at hev
    exact hev
  have hparse : KeyBlockHeader.new_from_str c1KeyBlob =
      .ok ⟨[68], 16, [80, 48], [65], [69], [48, 48], [69], 0, [48, 48], []⟩ := by
    have hp := new_from_str_headerValid hv16
      (hexEncode ([0, 128] ++ List.replicate 16 2 ++ List.replicate 32734 3) ++
        hexEncode (List.replicate 16 0))
    rw [show headerFixedBytes
          ⟨[68], 16, [80, 48], [65], [69], [48, 48], [69], 0, [48, 48], []⟩ =
        [68, 48, 48, 49, 54, 80, 48, 65, 69, 48, 48, 69, 48, 48, 48, 48] from by decide] at hp
    rw [show chainBytes
        (⟨[68], 16, [80, 48], [65], [69], [48, 48], [69], 0, [48, 48], []⟩ :
          KeyBlockHeader).opt_blocks = ([] : List Nat) from rfl] at hp
    rw [show ([68, 48, 48, 49, 54, 80, 48, 65, 69, 48, 48, 69, 48, 48, 48, 48] : List Nat) ++
        ([] ++ (hexEncode ([0, 128] ++ List.replicate 16 2 ++ List.replicate 32734 3) ++
          hexEncode (List.replicate 16 0))) = c1KeyBlob from by
      rw [List.nil_append, ← List.append_assoc]
      rfl] at hp
    exact hp
  have hunwrap : tr31_unwrap idCipher (List.replicate 32 1) c1KeyBlob =
      .error .kbLengthMismatch :=
    tr31_unwrap_mismatch hparse (by rw [hclen]; decide)
  exact ⟨hwrap, hclen, hunwrap⟩
